import Mathlib

/-!
Verification of the Emotion-Task-Optimizer decision engine.

This file gives a shallow embedding of the core of the repository
(`src/task.py` and `src/algorithms.py`) and proves or refutes a set of
claims about it.

Modelling conventions:
* Python `datetime` values are embedded as a record carrying the absolute
  time in seconds plus the derived `hour` and `weekday` fields that the
  code reads.  A parsed `YYYY-MM-DD` date is its day ordinal (an integer);
  `timedelta.days` is floor division of the second difference by 86400,
  matching Python's normalization.
* Calls to `datetime.now()` inside the code become an explicit `now`
  parameter threaded through every function.
* A task's `deadline` (and the `date`/`start_date` constraint values) are
  embedded as `Option (Option Int)`: `none` is an absent/falsy deadline,
  `some none` a string `strptime` fails on, and `some (some d)` a string
  parsing to day ordinal `d`.
* Python numbers (ints and floats) are embedded as `ℚ` where they mix,
  and as `Int` where the code keeps them integral.
* Python dictionaries of constraint parameters become a record of
  `Option` fields (`none` = key absent).
* Mutation of `Task` fields (`score`, `success_rate`, ...) is embedded as
  functional update; object identity is modelled as structural equality
  (task `name`s are the engine's identity keys per the data model).
-/

namespace ETO

/-- An embedded `datetime`: absolute seconds plus the derived fields the
code inspects. -/
structure DateTime where
  sec : Int
  hour : Int
  weekday : Int
deriving DecidableEq

/-- `datetime.date()` as a day ordinal: floor of the absolute seconds by
86400. -/
def DateTime.dateOrdinal (t : DateTime) : Int :=
  Int.fdiv t.sec 86400

/-- Membership flags of the `time_constraints` mapping. -/
structure TimeFlags where
  morning_only : Bool
  evening_only : Bool
  office_hours : Bool
  weekends_only : Bool
deriving DecidableEq

/-- The `requires` constraint value: a single resource name or a list. -/
inductive Req where
  | scalar (s : String)
  | rlist (l : List String)
deriving DecidableEq

/-- The `allowed_time` constraint value (`start`/`end` keys; `end` is a
Lean keyword, hence `startH`/`endH`). -/
structure AllowedTime where
  startH : Option Int
  endH : Option Int
deriving DecidableEq

/-- The recognized keys of a task's `constraints` mapping; `none` means
the key is absent.  The `optimal` sub-key of `allowed_time` is consumed
only by `csp_preferences`, which no claim mentions, and is omitted. -/
structure Constraints where
  requires : Option Req
  allowed_time : Option AllowedTime
  preferred_time : Option String
  max_time : Option Int
  energy_required : Option Int
  time_constraints : Option TimeFlags
  date : Option (Option Int)
  start_date : Option (Option Int)
deriving DecidableEq

def emptyConstraints : Constraints :=
  ⟨none, none, none, none, none, none, none, none⟩

/-- The per-decision-cycle conditions dictionary. -/
structure Conditions where
  current_time : Option DateTime
  available_resources : List String
  current_energy : Option Int
  current_emotion : Option String
  preference_bonus : Option ℚ
  urgency_bonus : Option ℚ
deriving DecidableEq

def emptyConditions : Conditions := ⟨none, [], none, none, none, none⟩

/-- The `Task` entity of `src/task.py`, restricted to the fields the core
reads or writes. -/
structure Task where
  name : String
  base_priority : Int
  category : String
  duration : Int
  emotion_fit : List String
  deadline : Option (Option Int)
  task_type : String
  constraints : Constraints
  score : ℚ
  completed : Bool
  attempt_count : Int
  last_attempted : Option DateTime
  success_rate : ℚ
deriving DecidableEq

/-- `self.preferred_time = self.constraints.get("preferred_time", "any")`. -/
def Task.preferredTime (t : Task) : String :=
  t.constraints.preferred_time.getD "any"

/-- `self.energy_required = self.constraints.get("energy_required", 5)`. -/
def Task.energyRequired (t : Task) : Int :=
  t.constraints.energy_required.getD 5

/-- The preferred-time tail of `Task.get_time_suitability`. -/
def preferredTimeBonus (t : Task) (hour : Int) : ℚ :=
  let p := t.preferredTime
  if p = "morning" ∧ 6 ≤ hour ∧ hour < 12 then 3
  else if p = "afternoon" ∧ 12 ≤ hour ∧ hour < 17 then 3
  else if p = "evening" ∧ 17 ≤ hour ∧ hour < 22 then 3
  else if p = "any" then 1
  else 0

/-- `Task.get_time_suitability` (src/task.py lines 92-115). -/
def Task.get_time_suitability (t : Task) (current_time : DateTime) : ℚ :=
  let hour := current_time.hour
  match t.constraints.time_constraints with
  | some tc =>
    if tc.morning_only ∧ 12 ≤ hour then -5
    else if tc.evening_only ∧ hour < 17 then -5
    else if tc.office_hours ∧ (hour < 9 ∨ 17 ≤ hour) then -3
    else preferredTimeBonus t hour
  | none => preferredTimeBonus t hour

/-- `Task.get_urgency_bonus` (src/task.py lines 117-137): deadline
proximity relative to `datetime.now()` (the `now` parameter). -/
def Task.get_urgency_bonus (t : Task) (now : DateTime) : ℚ :=
  match t.deadline with
  | none => 0
  | some none => 0
  | some (some dl) =>
    let days := Int.fdiv (dl * 86400 - now.sec) 86400
    if days < 0 then 10
    else if days = 0 then 8
    else if days ≤ 2 then 5
    else if days ≤ 7 then 2
    else 0

/-- `Task.compute_score` (src/task.py lines 37-90).  Note that the source
never uses its `urgency_bonus` parameter: the deadline term it adds is
`self.get_urgency_bonus()`. -/
def Task.compute_score (t : Task) (current_emotion : String)
    (current_time : Option DateTime) (current_energy : Int)
    (preference_bonus : ℚ) (_urgency_bonus : ℚ) (now : DateTime) : ℚ :=
  let ct := current_time.getD now
  let emotion_bonus : ℚ := if current_emotion ∈ t.emotion_fit then 8 else -4
  let type_bonus : ℚ :=
    if t.task_type = "must_do" then 5
    else if t.task_type = "mood_changer" then 3
    else 0
  let time_bonus := t.get_time_suitability ct
  let energy_bonus : ℚ :=
    max 0 (5 - ((|t.energyRequired - current_energy| : ℤ) : ℚ))
  let success_bonus := t.success_rate * 3
  let urgency := t.get_urgency_bonus now
  max (1/10) ((t.base_priority : ℚ) + emotion_bonus + type_bonus + time_bonus
    + energy_bonus + success_bonus + preference_bonus + urgency)

/-- The sum inside `compute_score` before the urgency term and the 0.1
floor, used to state what the score is made of. -/
def Task.score_sum (t : Task) (current_emotion : String) (ct : DateTime)
    (current_energy : Int) (preference_bonus : ℚ) : ℚ :=
  let emotion_bonus : ℚ := if current_emotion ∈ t.emotion_fit then 8 else -4
  let type_bonus : ℚ :=
    if t.task_type = "must_do" then 5
    else if t.task_type = "mood_changer" then 3
    else 0
  (t.base_priority : ℚ) + emotion_bonus + type_bonus
    + t.get_time_suitability ct
    + max 0 (5 - ((|t.energyRequired - current_energy| : ℤ) : ℚ))
    + t.success_rate * 3 + preference_bonus

/-- `Task.mark_attempted` (src/task.py lines 139-150). -/
def Task.mark_attempted (t : Task) (successful : Bool) (now : DateTime) : Task :=
  let t1 := { t with attempt_count := t.attempt_count + 1,
                     last_attempted := some now }
  if successful then
    { t1 with completed := true,
              success_rate := min 1 (t1.success_rate + 1/10) }
  else
    { t1 with success_rate := max (1/10) (t1.success_rate - 2/10) }

/-- `Task.is_time_suitable` (src/task.py lines 183-200). -/
def Task.is_time_suitable (t : Task) (current_time : DateTime) : Bool :=
  match t.constraints.time_constraints with
  | none => true
  | some tc =>
    if tc.morning_only ∧ 12 ≤ current_time.hour then false
    else if tc.evening_only ∧ current_time.hour < 17 then false
    else if tc.office_hours ∧ (current_time.hour < 9 ∨ 17 ≤ current_time.hour) then false
    else if tc.weekends_only ∧ current_time.weekday < 5 then false
    else true

/-- `Task.check_constraints` (src/task.py lines 152-181).  The final time
check re-reads the wall clock (`datetime.now()`), i.e. uses `now`, not the
conditions record. -/
def Task.check_constraints (t : Task) (current_conditions : Conditions)
    (now : DateTime) : Bool :=
  let dateOK :=
    match t.constraints.date <|> t.constraints.start_date with
    | some (some target) => decide (¬ (now.dateOrdinal < target))
    | _ => true
  let reqOK :=
    match t.constraints.requires with
    | some (.rlist l) =>
      l.all (fun item => decide (item ∈ current_conditions.available_resources))
    | some (.scalar s) => decide (s ∈ current_conditions.available_resources)
    | none => true
  let maxOK :=
    match t.constraints.max_time with
    | some m => decide (¬ (m < t.duration))
    | none => true
  dateOK && reqOK && maxOK && t.is_time_suitable now

/-! ## Strict filter (src/algorithms.py lines 535-564) -/

/-- The per-task test of `apply_strict_constraints`: the emotion check
(with the must_do/priority≥7 bypass), then `is_time_suitable` at the
conditions' time, then `check_constraints`. -/
def strictPass (conditions : Conditions) (current_emotion : String)
    (now : DateTime) (t : Task) : Bool :=
  let current_time := conditions.current_time.getD now
  (decide (current_emotion ∈ t.emotion_fit)
    || (decide (t.task_type = "must_do") && decide (7 ≤ t.base_priority)))
  && t.is_time_suitable current_time
  && t.check_constraints conditions now

/-- `apply_strict_constraints` (src/algorithms.py lines 535-564): the loop
appends each surviving task in input order, i.e. a filter. -/
def apply_strict_constraints (tasks : List Task) (conditions : Conditions)
    (current_emotion : String) (now : DateTime) : List Task :=
  tasks.filter (strictPass conditions current_emotion now)

/-! ## CSP solver (src/algorithms.py lines 11-184)

The Python `assignment` dictionary is embedded as an association list in
insertion order (re-adding a deleted key appends at the end, exactly as a
Python dict does). -/

abbrev Assignment := List (String × Bool)

def lookupA : Assignment → String → Option Bool
  | [], _ => none
  | p :: rest, k => if p.1 = k then some p.2 else lookupA rest k

def containsKey (a : Assignment) (k : String) : Bool :=
  (lookupA a k).isSome

/-- `self.variables = [task.name for task in tasks]`. -/
def cspVariables (tasks : List Task) : List String :=
  tasks.map Task.name

/-- `self.task_map = {task.name: task for task in tasks}`: a later task
with the same name overwrites an earlier one, so look up from the right. -/
def taskMap (tasks : List Task) (n : String) : Option Task :=
  tasks.reverse.find? (fun t => t.name == n)

/-- The closure added by `CSP.add_emotion_constraint` (lines 30-38): for a
`True` value the current emotion must be in `emotion_fit` — note there is
no must_do bypass here (a missing variable would raise `KeyError` in
Python; modelled as `false`, and unreachable for variables of the pool). -/
def cspEmotionConstraint (tasks : List Task) (emotion : String)
    (vr : String) (value : Bool) : Bool :=
  if value then
    match taskMap tasks vr with
    | some task => decide (emotion ∈ task.emotion_fit)
    | none => false
  else true

/-- The closure added by `CSP.add_time_constraint` (lines 40-49). -/
def cspTimeConstraint (tasks : List Task) (conditions : Conditions)
    (now : DateTime) (vr : String) (value : Bool) : Bool :=
  if value then
    match taskMap tasks vr with
    | some task => task.is_time_suitable (conditions.current_time.getD now)
    | none => false
  else true

/-- The closure added by `CSP.add_resource_constraint` (lines 51-59). -/
def cspResourceConstraint (tasks : List Task) (conditions : Conditions)
    (now : DateTime) (vr : String) (value : Bool) : Bool :=
  if value then
    match taskMap tasks vr with
    | some task => task.check_constraints conditions now
    | none => false
  else true

/-- `CSP.is_consistent` (lines 119-130): runs every constraint closure,
in the order they were appended in `__init__` (emotion, resource, time).
The closures never read the temporary assignment, so it is not passed on. -/
def isConsistent (tasks : List Task) (emotion : String)
    (conditions : Conditions) (now : DateTime) (_assignment : Assignment)
    (vr : String) (value : Bool) : Bool :=
  cspEmotionConstraint tasks emotion vr value
  && cspResourceConstraint tasks conditions now vr value
  && cspTimeConstraint tasks conditions now vr value

/-- The conjunction a task must satisfy for its variable to carry `True`:
the three CSP constraint predicates evaluated on the task itself. -/
def cspSuitable (emotion : String) (conditions : Conditions)
    (now : DateTime) (t : Task) : Bool :=
  decide (emotion ∈ t.emotion_fit)
  && t.check_constraints conditions now
  && t.is_time_suitable (conditions.current_time.getD now)

/-- `cspSuitable` read through the task map, i.e. the value a variable
must satisfy to be assigned `True`. -/
def suitName (tasks : List Task) (emotion : String) (conditions : Conditions)
    (now : DateTime) (n : String) : Bool :=
  match taskMap tasks n with
  | some t => cspSuitable emotion conditions now t
  | none => false

/-- First minimum of a list under a key, as produced by Python's
`min(..., key=...)` (later elements replace only on a strictly smaller
key). -/
def firstMinBy {α β : Type} [LinearOrder β] (key : α → β) :
    List α → Option α
  | [] => none
  | x :: xs =>
    match firstMinBy key xs with
    | none => some x
    | some y => if key y < key x then some y else some x

/-- First maximum of a list under a key, as produced by Python's
`max(..., key=...)`. -/
def firstMaxBy {α β : Type} [LinearOrder β] (key : α → β) :
    List α → Option α
  | [] => none
  | x :: xs =>
    match firstMaxBy key xs with
    | none => some x
    | some y => if key x < key y then some y else some x

/-- The unassigned variables, in declaration order. -/
def cspUnassigned (tasks : List Task) (a : Assignment) : List String :=
  (cspVariables tasks).filter (fun v => !(containsKey a v))

/-- The legal-value count of `CSP.mrv_heuristic`: how many of the domain
values `[True, False]` are consistent. -/
def cspLegalValues (tasks : List Task) (emotion : String)
    (conditions : Conditions) (now : DateTime) (a : Assignment)
    (vr : String) : Nat :=
  ([true, false].filter
    (fun v => isConsistent tasks emotion conditions now a vr v)).length

/-- `CSP.mrv_heuristic` (lines 61-79): the first unassigned variable with
the fewest legal values (`min` over the score pairs keyed by the count). -/
def cspMrv (tasks : List Task) (emotion : String) (conditions : Conditions)
    (now : DateTime) (a : Assignment) : Option String :=
  if (cspUnassigned tasks a).isEmpty then none
  else firstMinBy (cspLegalValues tasks emotion conditions now a)
    (cspUnassigned tasks a)

def reqDefault (o : Option Req) : Req :=
  o.getD (Req.scalar "")

/-- Python truthiness of a `requires` value defaulted to the empty
string. -/
def reqTruthy : Req → Bool
  | .scalar s => !(s == "")
  | .rlist l => !l.isEmpty

/-- The degree score of one variable in `CSP.degree_heuristic`
(lines 81-117); both time checks sample the wall clock (`now`). -/
def degreeCount (tasks : List Task) (now : DateTime)
    (unassigned : List String) (vr : String) : Nat :=
  match taskMap tasks vr with
  | none => 0
  | some task1 =>
    unassigned.foldl (fun d other =>
      if vr = other then d
      else
        match taskMap tasks other with
        | none => d
        | some task2 =>
          let d1 := if !(task1.is_time_suitable now)
                       && !(task2.is_time_suitable now) then d + 1 else d
          let r1 := reqDefault task1.constraints.requires
          let r2 := reqDefault task2.constraints.requires
          if reqTruthy r1 && reqTruthy r2 && decide (r1 = r2)
          then d1 + 1 else d1) 0

/-- `CSP.degree_heuristic`: the first unassigned variable with the largest
degree score. -/
def cspDegree (tasks : List Task) (now : DateTime) (a : Assignment) :
    Option String :=
  if (cspUnassigned tasks a).isEmpty then none
  else firstMaxBy (degreeCount tasks now (cspUnassigned tasks a))
    (cspUnassigned tasks a)

/-- `CSP.backtrack` (lines 132-154), with a fuel argument for structural
termination (`CSP.solve` supplies more fuel than the recursion can use).
Trying `True` first, then `False` after un-assigning, is exactly the
source's value loop; `none` at exhausted fuel or a `None` variable models
paths the Python code cannot complete (the latter raises `KeyError`). -/
def cspBacktrack (tasks : List Task) (emotion : String)
    (conditions : Conditions) (now : DateTime) :
    Nat → Assignment → Option Assignment
  | 0, _ => none
  | fuel + 1, a =>
    if a.length = (cspVariables tasks).length then some a
    else
      match
        (match cspMrv tasks emotion conditions now a with
         | some v => some v
         | none => cspDegree tasks now a) with
      | none => none
      | some var =>
        match
          (if isConsistent tasks emotion conditions now a var true then
            cspBacktrack tasks emotion conditions now fuel (a ++ [(var, true)])
          else none) with
        | some r => some r
        | none =>
          if isConsistent tasks emotion conditions now a var false then
            cspBacktrack tasks emotion conditions now fuel (a ++ [(var, false)])
          else none

/-- Rendering of the `requires` value inside the resource warning (Python
interpolates the str or list; only the task-name prefix matters to any
claim). -/
def reqRender : Req → String
  | .scalar s => s
  | .rlist l => String.intercalate ", " l

/-- One step of the extraction loop of `CSP.solve` (lines 164-184):
collect a `True` task and its warnings. -/
def cspExtractStep (tasks : List Task) (conditions : Conditions)
    (now : DateTime) (acc : List Task × List String) (p : String × Bool) :
    List Task × List String :=
  if p.2 then
    match taskMap tasks p.1 with
    | some task =>
      let rec1 := acc.1 ++ [task]
      let current_time := conditions.current_time.getD now
      let warn1 :=
        if task.is_time_suitable current_time then acc.2
        else acc.2 ++ [task.name ++ ": Task may not be suitable for current time"]
      let warn2 :=
        if task.check_constraints conditions now then warn1
        else
          let required := reqDefault task.constraints.requires
          if reqTruthy required then
            warn1 ++ [task.name ++ ": Requires " ++ reqRender required]
          else warn1
      (rec1, warn2)
    | none => acc
  else acc

/-- The extraction loop of `CSP.solve`: walk the solution in insertion
order. -/
def cspExtract (tasks : List Task) (conditions : Conditions)
    (now : DateTime) (sol : Assignment) : List Task × List String :=
  sol.foldl (cspExtractStep tasks conditions now) ([], [])

/-- `CSP.solve` (lines 156-184); `current_conditions or {}` from
`__init__` becomes `Option.getD emptyConditions`. -/
def cspSolve (tasks : List Task) (emotion : String)
    (conditionsArg : Option Conditions) (now : DateTime) :
    List Task × List String :=
  let conditions := conditionsArg.getD emptyConditions
  match cspBacktrack tasks emotion conditions now (tasks.length + 1) [] with
  | none => ([], ["CSP could not find a solution"])
  | some sol => cspExtract tasks conditions now sol

/-! ## Deadline selector `csp_task` (src/algorithms.py lines 190-271) -/

/-- The parsed `(task, days_until)` pairs: tasks with a truthy deadline
whose string parses (`except: continue` drops the rest). -/
def deadlineEntries (tasks : List Task) (ct : DateTime) :
    List (Task × Int) :=
  (tasks.filter (fun t => t.deadline.isSome)).filterMap (fun t =>
    match t.deadline with
    | some (some dl) => some (t, Int.fdiv (dl * 86400 - ct.sec) 86400)
    | _ => none)

/-- `csp_task` (lines 190-271).  The source sorts each urgency bucket and
takes element `[0]`; since Python's sort is stable that element is the
first minimum of the sort key, which is what is taken here (`abs(days)`
for the overdue bucket, `days` for the others). -/
def csp_task (tasks : List Task) (current_time : Option DateTime)
    (now : DateTime) : Option Task × String × String :=
  if tasks.isEmpty then (none, "No tasks with deadlines found", "none")
  else if (tasks.filter (fun t => t.deadline.isSome)).isEmpty then
    (none, "No tasks have deadlines set", "none")
  else
    let ct := current_time.getD now
    let entries := deadlineEntries tasks ct
    let overdue := entries.filter (fun p => p.2 < 0)
    let due_today := entries.filter (fun p => p.2 = 0)
    let due_tomorrow := entries.filter (fun p => p.2 = 1)
    let due_week := entries.filter (fun p => 2 ≤ p.2 ∧ p.2 ≤ 7)
    let due_later := entries.filter (fun p => 8 ≤ p.2)
    match firstMinBy (fun p => |p.2|) overdue with
    | some p =>
      (some p.1,
       "This task is " ++ toString |p.2|
         ++ " days OVERDUE! You should complete it immediately.",
       "overdue")
    | none =>
      match firstMinBy (fun p => p.2) due_today with
      | some p => (some p.1, "This task is DUE TODAY! Complete it now.", "due_today")
      | none =>
        match firstMinBy (fun p => p.2) due_tomorrow with
        | some p =>
          (some p.1, "This task is due TOMORROW. Consider starting it today.",
           "due_tomorrow")
        | none =>
          match firstMinBy (fun p => p.2) due_week with
          | some p =>
            (some p.1,
             "This task is due in " ++ toString p.2 ++ " days. Plan accordingly.",
             "due_week")
          | none =>
            match firstMinBy (fun p => p.2) due_later with
            | some p =>
              (some p.1, "This task is due in " ++ toString p.2 ++ " days.",
               "due_later")
            | none => (none, "", "none")

/-! ## Greedy selector (src/algorithms.py lines 580-631) -/

/-- The scan of `greedy` over the valid tasks: strictly higher score wins,
ties go to higher `base_priority`, then to shorter `duration`. -/
def greedyPick (score : Task → ℚ) (tasks : List Task) : Option Task :=
  tasks.foldl (fun best t =>
    match best with
    | none => some t
    | some b =>
      if score b < score t then some t
      else if score t = score b then
        if b.base_priority < t.base_priority then some t
        else if t.base_priority = b.base_priority ∧ t.duration < b.duration then
          some t
        else some b
      else some b) none

/-- `greedy` (lines 580-631). -/
def greedy (tasks : List Task) (emotion : Option String)
    (current_conditions : Option Conditions) (now : DateTime) : Option Task :=
  if tasks.isEmpty then none
  else
    let current_time :=
      match current_conditions with
      | some c => c.current_time.getD now
      | none => now
    let current_energy :=
      match current_conditions with
      | some c => c.current_energy.getD 5
      | none => 5
    let preference_bonus : ℚ :=
      match current_conditions with
      | some c => c.preference_bonus.getD 0
      | none => 0
    let urgency_bonus : ℚ :=
      match current_conditions with
      | some c => c.urgency_bonus.getD 0
      | none => 0
    let emo := emotion.getD "neutral"
    let valid := apply_strict_constraints tasks
      (current_conditions.getD emptyConditions) emo now
    if valid.isEmpty then none
    else greedyPick (fun t => t.compute_score emo (some current_time)
      current_energy preference_bonus urgency_bonus now) valid

/-! ## Hill climbing (src/algorithms.py lines 633-730) -/

/-- Cardinality of `set(l1) & set(l2)`. -/
def interCard (l1 l2 : List String) : Nat :=
  (l1.dedup.filter (fun x => decide (x ∈ l2))).length

/-- Cardinality of `set(l1) | set(l2)`. -/
def unionCard (l1 l2 : List String) : Nat :=
  ((l1 ++ l2).dedup).length

/-- `calculate_task_similarity` (lines 691-730); every `hasattr` test is
true in the entity model, so each factor contributes whenever its own
guard passes. -/
def calculate_task_similarity (task1 task2 : Task) : ℚ :=
  let sim0 : ℚ := 0
  let fac0 : ℚ := 0
  let eTotal := unionCard task1.emotion_fit task2.emotion_fit
  let sim1 := if 0 < eTotal then
      sim0 + ((interCard task1.emotion_fit task2.emotion_fit : ℚ) / (eTotal : ℚ)) * 2
    else sim0
  let fac1 := if 0 < eTotal then fac0 + 2 else fac0
  let sim2 := if 0 < task1.duration ∧ 0 < task2.duration then
      sim1 + ((min task1.duration task2.duration : ℤ) : ℚ)
        / ((max task1.duration task2.duration : ℤ) : ℚ)
    else sim1
  let fac2 := if 0 < task1.duration ∧ 0 < task2.duration then fac1 + 1 else fac1
  let sim3 := sim2 + ((10 : ℚ) - ((|task1.base_priority - task2.base_priority| : ℤ) : ℚ)) / 10
  let fac3 := fac2 + 1
  let sim4 := if task1.task_type = task2.task_type then sim3 + 1 else sim3
  let fac4 := fac3 + 1
  let sim5 := if task1.category = task2.category then sim4 + 1 else sim4
  let fac5 := fac4 + 1
  if 0 < fac5 then sim5 / fac5 else 1/2

/-- The climb loop of `hill_climbing` (lines 662-687): neighbors are all
tasks of the (score-updated) pool other than the current best with
similarity ≥ 0.6; move only on a strictly better score. -/
def hcClimb (pool : List Task) : Nat → Task → Task
  | 0, cur => cur
  | n + 1, cur =>
    let neighbors := pool.filter (fun t =>
      !(decide (t = cur)) && decide ((3/5 : ℚ) ≤ calculate_task_similarity cur t))
    match firstMaxBy (fun t : Task => t.score) neighbors with
    | none => cur
    | some best => if cur.score < best.score then hcClimb pool n best else cur

/-- The setup phase of `hill_climbing`: strict-filter, write each valid
task's fresh `compute_score` into its `score` field (the Python loop
mutates the shared objects, so the full pool sees the update), and pick
the highest-scoring valid task as the start.  Returns the updated pool
and the start, or `none` where the source returns early. -/
def hcSetup (tasks : List Task) (current_conditions : Option Conditions)
    (now : DateTime) : Option (List Task × Task) :=
  if tasks.isEmpty then none
  else
    let current_emotion :=
      match current_conditions with
      | some c => c.current_emotion.getD "neutral"
      | none => "neutral"
    let current_energy :=
      match current_conditions with
      | some c => c.current_energy.getD 5
      | none => 5
    let valid := apply_strict_constraints tasks
      (current_conditions.getD emptyConditions) current_emotion now
    if valid.isEmpty then none
    else
      let newScore := fun t : Task =>
        t.compute_score current_emotion none current_energy 0 0 now
      let pool := tasks.map (fun t =>
        if decide (t ∈ valid) then { t with score := newScore t } else t)
      let validScored := valid.map (fun t => { t with score := newScore t })
      match firstMaxBy (fun t : Task => t.score) validScored with
      | some start => some (pool, start)
      | none => none

/-- The starting task of `hill_climbing` (the best-scoring strictly
filtered task). -/
def hcStart (tasks : List Task) (current_conditions : Option Conditions)
    (now : DateTime) : Option Task :=
  (hcSetup tasks current_conditions now).map Prod.snd

/-- `hill_climbing` (lines 633-689). -/
def hill_climbing (tasks : List Task) (current_conditions : Option Conditions)
    (max_iterations : Nat) (now : DateTime) : Option Task :=
  match hcSetup tasks current_conditions now with
  | none => none
  | some (pool, start) => some (hcClimb pool max_iterations start)

/-! ## Sequence planner `mini_a_star` (src/algorithms.py lines 753-931)

The Python search node keeps a parent pointer; here a node carries the
materialized root-first sequence (`Node.sequence()`), whose length is the
node's `depth`.  The `heapq` of `(f, id(node), node)` tuples is embedded
as a list of `(counter, node)` entries popped at the least `(f, counter)`
key: ids are unique so node objects are never compared, and the
memory-address tie-break is modelled by a creation-order counter (the
design notes name that as the intended behavior). -/

structure ANode where
  seq : List Task
  emotion_after : String
  g : ℚ
  h : ℚ
deriving DecidableEq

def ANode.f (n : ANode) : ℚ := n.g + n.h

def ANode.depth (n : ANode) : Nat := n.seq.length

abbrev AEntry := Nat × ANode

/-- `predict_next_emotion` (lines 834-854). -/
def predict_next_emotion (task : Task) (emotion : String) : String :=
  if task.category ∈ (["break", "personal", "life", "mood_enhancer",
      "user_preference"] : List String) then
    if emotion ∈ (["sad", "angry", "tired", "stressed"] : List String) then "neutral"
    else if emotion ∈ (["neutral", "happy"] : List String) then "happy"
    else emotion
  else if task.category ∈ (["academic", "work", "todo_must"] : List String) then
    if emotion ∈ (["neutral", "focused"] : List String) then "focused"
    else if emotion ∈ (["sad", "angry", "tired"] : List String) then "tired"
    else emotion
  else if emotion ∈ (["sad", "angry", "tired"] : List String) then "neutral"
  else emotion

/-- `g_score` (lines 784-807); the allowed-time check for preference tasks
reads the wall clock. -/
def g_score (fatigue_score : Int) (now : DateTime) (task : Task)
    (emotion : String) (is_first : Bool) : ℚ :=
  let cost0 : ℚ := 10 - (task.base_priority : ℚ)
  let cost1 := if emotion ∈ task.emotion_fit then cost0 else cost0 + 5
  let cost2 := cost1 + (fatigue_score : ℚ) * (1/2)
  let cost3 := if is_first then cost2 - 2 else cost2
  let cost4 :=
    if task.task_type = "preference" then
      let c := if emotion ∈ task.emotion_fit then cost3 - 3 else cost3
      match task.constraints.allowed_time with
      | some aw =>
        let s := aw.startH.getD 0
        let e := aw.endH.getD 24
        if s ≤ now.hour ∧ now.hour < e then c else c + 5
      | none => c
    else cost3
  max 0 cost4

/-- `h_score` (lines 810-831): `50 - compute_score(predicted_emotion, ...)`
with the wall clock as time and `10 - fatigue` as energy. -/
def h_score (fatigue_score : Int) (now : DateTime) (task : Task)
    (predicted_emotion : String) : ℚ :=
  50 - task.compute_score predicted_emotion (some now) (10 - fatigue_score) 0 0 now

/-- Name deduplication of the valid pool (lines 772-776): keep the first
task per name, in order. -/
def dedupeByName (tasks : List Task) : List Task :=
  tasks.foldl (fun acc t =>
    if acc.any (fun u => u.name == t.name) then acc else acc ++ [t]) []

/-- Pop the entry with the least `(f, counter)` key, returning it and the
remaining entries — the observable behavior of `heappop` on tuples with
unique second components. -/
def entryLt (x y : AEntry) : Bool :=
  x.2.f < y.2.f || (x.2.f = y.2.f && x.1 < y.1)

def popMin : List AEntry → Option (AEntry × List AEntry)
  | [] => none
  | x :: xs =>
    match popMin xs with
    | none => some (x, [])
    | some (y, ys) => if entryLt y x then some (y, x :: ys) else some (x, xs)

/-- Expansion of one node (lines 907-923): children for every pool task
not already in the sequence that fits the predicted emotion (or is a
high-priority must_do), pushed in pool order with fresh counters. -/
def expandChildren (all_tasks : List Task) (fatigue_score : Int)
    (now : DateTime) (node : ANode) (cnt0 : Nat) : List AEntry × Nat :=
  all_tasks.foldl (fun acc next_task =>
    if decide (next_task ∈ node.seq) then acc
    else if !(decide (node.emotion_after ∈ next_task.emotion_fit))
        && !(decide (next_task.task_type = "must_do")
             && decide (7 ≤ next_task.base_priority)) then acc
    else
      let g_new := node.g + g_score fatigue_score now next_task node.emotion_after false
      let h_new := h_score fatigue_score now next_task
        (predict_next_emotion next_task node.emotion_after)
      let child : ANode :=
        ⟨node.seq ++ [next_task],
         predict_next_emotion next_task node.emotion_after, g_new, h_new⟩
      (acc.1 ++ [(acc.2, child)], acc.2 + 1)) ([], cnt0)

/-- The initial open set (lines 886-892): one root node per pool task. -/
def initEntries (all_tasks : List Task) (fatigue_score : Int)
    (now : DateTime) (current_emotion : String) : List AEntry :=
  (all_tasks.foldl (fun acc task =>
    let g := g_score fatigue_score now task current_emotion true
    let h := h_score fatigue_score now task
      (predict_next_emotion task current_emotion)
    ((acc.1 ++ [(acc.2,
      (⟨[task], predict_next_emotion task current_emotion, g, h⟩ : ANode))]),
      acc.2 + 1)) (([], 0) : List AEntry × Nat)).1

/-- The search loop (lines 894-923), fuel-indexed: pop the least-`f` node;
a node at depth ≥ `max_sequence_length` is a candidate final sequence kept
when strictly better; otherwise it is expanded.  The fuel passed by
`mini_a_star` exceeds the total number of nodes the search can ever
create, so the `0` case is never reached on its calls. -/
def aStarLoop (all_tasks : List Task) (fatigue_score : Int) (now : DateTime)
    (max_sequence_length : Nat) :
    Nat → List AEntry → Nat → Option (List Task × ℚ) → Option (List Task)
  | 0, _, _, best => best.map Prod.fst
  | fuel + 1, frontier, cnt, best =>
    match popMin frontier with
    | none => best.map Prod.fst
    | some (e, rest) =>
      let node := e.2
      if max_sequence_length ≤ node.depth then
        let newBest :=
          match best with
          | none => some (node.seq, node.f)
          | some (bs, bf) =>
            if node.f < bf then some (node.seq, node.f) else some (bs, bf)
        aStarLoop all_tasks fatigue_score now max_sequence_length fuel rest cnt newBest
      else
        let ex := expandChildren all_tasks fatigue_score now node cnt
        aStarLoop all_tasks fatigue_score now max_sequence_length fuel
          (rest ++ ex.1) ex.2 best

/-- An upper bound on the number of loop iterations: every node is an
injective sequence over the deduplicated pool of length at most
`max_sequence_length + 1`. -/
def aStarFuel (all_tasks : List Task) (max_sequence_length : Nat) : Nat :=
  (all_tasks.length + 1) ^ (max_sequence_length + 1) * (all_tasks.length + 1)

/-- The deduplicated, strictly filtered pool of `mini_a_star`. -/
def miniAStarCandidates (tasks : List Task) (current_emotion : String)
    (current_conditions : Option Conditions)
    (user_preferences : Option (List Task)) (now : DateTime) : List Task :=
  dedupeByName (apply_strict_constraints (tasks ++ user_preferences.getD [])
    (current_conditions.getD emptyConditions) current_emotion now)

/-- `fatigue_score` (lines 778-781): zero when no conditions record is
passed. -/
def aStarFatigue (current_conditions : Option Conditions) : Int :=
  match current_conditions with
  | some c => 10 - c.current_energy.getD 5
  | none => 0

/-- The best complete sequence the search retains (lines 894-923). -/
def miniAStarBest (tasks : List Task) (current_emotion : String)
    (current_conditions : Option Conditions) (max_sequence_length : Nat)
    (user_preferences : Option (List Task)) (now : DateTime) :
    Option (List Task) :=
  let all_tasks := miniAStarCandidates tasks current_emotion
    current_conditions user_preferences now
  let fatigue_score := aStarFatigue current_conditions
  let init := initEntries all_tasks fatigue_score now current_emotion
  aStarLoop all_tasks fatigue_score now max_sequence_length
    (aStarFuel all_tasks max_sequence_length) init init.length none

/-- The greedy fallback (lines 929-931). -/
def miniAStarFallback (all_tasks : List Task) (current_emotion : String)
    (now : DateTime) : List Task :=
  match greedy all_tasks (some current_emotion) none now with
  | some t => [t]
  | none => []

/-- The final branch of `mini_a_star` (lines 926-931): return the best
sequence truncated to the requested length when one of length ≥ 2 was
found, else the greedy fallback. -/
def miniAStarAssemble (best : Option (List Task)) (max_sequence_length : Nat)
    (all_tasks : List Task) (current_emotion : String) (now : DateTime) :
    List Task :=
  match best with
  | some s =>
    if 2 ≤ s.length then s.take max_sequence_length
    else miniAStarFallback all_tasks current_emotion now
  | none => miniAStarFallback all_tasks current_emotion now

/-- `mini_a_star` (lines 753-931). -/
def mini_a_star (tasks : List Task) (current_emotion : String)
    (current_conditions : Option Conditions) (max_sequence_length : Nat)
    (user_preferences : Option (List Task)) (now : DateTime) : List Task :=
  let pool := tasks ++ user_preferences.getD []
  if pool.isEmpty then []
  else if (apply_strict_constraints pool (current_conditions.getD emptyConditions)
      current_emotion now).isEmpty then []
  else
    miniAStarAssemble
      (miniAStarBest tasks current_emotion current_conditions
        max_sequence_length user_preferences now)
      max_sequence_length
      (miniAStarCandidates tasks current_emotion current_conditions
        user_preferences now)
      current_emotion now

/-- The weight of an open-set entry: strictly more than the total weight
of the children its expansion can create.  `Nat` subtraction truncates at
zero, which only makes weights of candidate-depth nodes equal to one. -/
def nodeWeight (n : Nat) (max_sequence_length : Nat) (e : AEntry) : Nat :=
  (n + 1) ^ (max_sequence_length - e.2.depth)

/-- The termination measure of the search loop: the total weight of the
open set.  Every iteration strictly decreases it, so any fuel above the
initial measure yields the loop's true fixpoint. -/
def frontierMeasure (n : Nat) (max_sequence_length : Nat)
    (frontier : List AEntry) : Nat :=
  (frontier.map (nodeWeight n max_sequence_length)).sum

/-- A sequence of `mark_attempted` calls folded over a task. -/
def applyAttempts (t : Task) (now : DateTime) (attempts : List Bool) : Task :=
  attempts.foldl (fun u b => u.mark_attempted b now) t

/-! ## Concrete values used by witnesses and counterexamples -/

/-- Day ordinal 100, 10:00, a Wednesday. -/
def exNow : DateTime := ⟨8640000, 10, 2⟩

/-- An unconstrained task fitting the emotion `happy`. -/
def exWalk : Task :=
  { name := "Walk", base_priority := 5, category := "personal", duration := 30,
    emotion_fit := ["happy"], deadline := none, task_type := "general",
    constraints := emptyConstraints, score := 0, completed := false,
    attempt_count := 0, last_attempted := none, success_rate := 1 }

/-- A high-priority must_do task fitting only `happy`. -/
def exReport : Task :=
  { exWalk with name := "Report", base_priority := 9, task_type := "must_do" }

/-- A task five days overdue relative to `exNow`. -/
def exOverdueFar : Task :=
  { exWalk with name := "A", deadline := some (some 95) }

/-- A task one day overdue relative to `exNow`. -/
def exOverdueNear : Task :=
  { exWalk with name := "B", deadline := some (some 99) }

/-- `exOverdueFar` stripped of its deadline. -/
def exNoDeadline : Task := { exOverdueFar with deadline := none }

/-- Conditions carrying only the current emotion `happy`. -/
def exConds : Conditions :=
  { emptyConditions with current_emotion := some "happy" }

/-- `exWalk` with the score `hill_climbing` writes into it. -/
def exWalkScored : Task :=
  { exWalk with score := Task.compute_score exWalk "happy" none 5 0 0 exNow }

/-! ## Helper lemmas -/

theorem firstMinBy_mem {α β : Type} [LinearOrder β] (key : α → β)
    (l : List α) (x : α) (h : firstMinBy key l = some x) : x ∈ l := by
  induction l with
  | nil => simp [firstMinBy] at h
  | cons a as ih =>
    rw [firstMinBy] at h
    cases hm : firstMinBy key as with
    | none =>
      rw [hm] at h
      have : a = x := Option.some_inj.mp h
      exact this ▸ List.mem_cons_self a as
    | some y =>
      rw [hm] at h
      simp only at h
      split at h
      · have hy : y = x := Option.some_inj.mp h
        exact List.mem_cons_of_mem _ (ih (hy ▸ hm))
      · have ha : a = x := Option.some_inj.mp h
        exact ha ▸ List.mem_cons_self a as

theorem firstMinBy_isSome {α β : Type} [LinearOrder β] (key : α → β)
    (l : List α) (h : l ≠ []) : (firstMinBy key l).isSome := by
  cases l with
  | nil => exact absurd rfl h
  | cons a as =>
    rw [firstMinBy]
    cases hm : firstMinBy key as with
    | none => simp
    | some y => simp only; split <;> simp

theorem firstMaxBy_mem {α β : Type} [LinearOrder β] (key : α → β)
    (l : List α) (x : α) (h : firstMaxBy key l = some x) : x ∈ l := by
  induction l with
  | nil => simp [firstMaxBy] at h
  | cons a as ih =>
    rw [firstMaxBy] at h
    cases hm : firstMaxBy key as with
    | none =>
      rw [hm] at h
      have : a = x := Option.some_inj.mp h
      exact this ▸ List.mem_cons_self a as
    | some y =>
      rw [hm] at h
      simp only at h
      split at h
      · have hy : y = x := Option.some_inj.mp h
        exact List.mem_cons_of_mem _ (ih (hy ▸ hm))
      · have ha : a = x := Option.some_inj.mp h
        exact ha ▸ List.mem_cons_self a as

theorem firstMaxBy_isSome {α β : Type} [LinearOrder β] (key : α → β)
    (l : List α) (h : l ≠ []) : (firstMaxBy key l).isSome := by
  cases l with
  | nil => exact absurd rfl h
  | cons a as =>
    rw [firstMaxBy]
    cases hm : firstMaxBy key as with
    | none => simp
    | some y => simp only; split <;> simp

theorem lookupA_append (a b : Assignment) (k : String) :
    lookupA (a ++ b) k =
      match lookupA a k with
      | some v => some v
      | none => lookupA b k := by
  induction a with
  | nil => simp [lookupA]
  | cons p rest ih =>
    by_cases h : p.1 = k
    · simp [lookupA, h]
    · simp [lookupA, h, ih]

theorem lookupA_isSome_iff (a : Assignment) (k : String) :
    (lookupA a k).isSome ↔ k ∈ a.map Prod.fst := by
  induction a with
  | nil => simp [lookupA]
  | cons p rest ih =>
    by_cases h : p.1 = k
    · simp [lookupA, h]
    · simp [lookupA, h, ih, Ne.symm h]

theorem lookupA_mem (a : Assignment) (k : String) (v : Bool)
    (h : lookupA a k = some v) : (k, v) ∈ a := by
  induction a with
  | nil => simp [lookupA] at h
  | cons p rest ih =>
    by_cases hk : p.1 = k
    · rw [lookupA, if_pos hk] at h
      have hv : p.2 = v := Option.some_inj.mp h
      have : p = (k, v) := by
        cases p
        simp_all
      exact this ▸ List.mem_cons_self p rest
    · rw [lookupA, if_neg hk] at h
      exact List.mem_cons_of_mem _ (ih h)

theorem mem_lookupA (a : Assignment) (k : String) (v : Bool)
    (hn : (a.map Prod.fst).Nodup) (h : (k, v) ∈ a) : lookupA a k = some v := by
  induction a with
  | nil => simp at h
  | cons p rest ih =>
    rw [List.map_cons, List.nodup_cons] at hn
    rcases List.mem_cons.mp h with h1 | h1
    · rw [← h1]
      simp [lookupA]
    · have hk : p.1 ≠ k := by
        intro hc
        exact hn.1 (hc ▸ List.mem_map.mpr ⟨(k, v), h1, rfl⟩)
      rw [lookupA, if_neg hk]
      exact ih hn.2 h1

theorem find?_name_of_nodup (t : Task) :
    ∀ (l : List Task), (l.map Task.name).Nodup → t ∈ l →
      l.find? (fun u => u.name == t.name) = some t := by
  intro l
  induction l with
  | nil => intro _ ht; simp at ht
  | cons a as ih =>
    intro hn ht
    rw [List.map_cons, List.nodup_cons] at hn
    rcases List.mem_cons.mp ht with h1 | h1
    · rw [← h1]
      rw [List.find?_cons_of_pos]
      simp
    · have hne : (a.name == t.name) = false := by
        rw [beq_eq_false_iff_ne]
        intro hc
        exact hn.1 (hc ▸ List.mem_map.mpr ⟨t, h1, rfl⟩)
      rw [List.find?_cons_of_neg _ (by simp [hne])]
      exact ih hn.2 h1

theorem taskMap_of_nodup (tasks : List Task) (t : Task)
    (hn : (tasks.map Task.name).Nodup) (ht : t ∈ tasks) :
    taskMap tasks t.name = some t := by
  unfold taskMap
  exact find?_name_of_nodup t tasks.reverse
    (by rw [List.map_reverse]; exact List.nodup_reverse.mpr hn) (List.mem_reverse.mpr ht)

theorem isConsistent_eq (tasks : List Task) (emotion : String)
    (conditions : Conditions) (now : DateTime) (a : Assignment)
    (vr : String) (v : Bool) :
    isConsistent tasks emotion conditions now a vr v =
      if v then
        (match taskMap tasks vr with
         | some t => cspSuitable emotion conditions now t
         | none => false)
      else true := by
  cases v <;>
    simp only [isConsistent, cspEmotionConstraint, cspResourceConstraint,
      cspTimeConstraint, cspSuitable, if_true, if_false, Bool.and_true] <;>
    cases taskMap tasks vr <;> simp [Bool.and_assoc]

theorem suitName_of_mem (tasks : List Task) (emotion : String)
    (conditions : Conditions) (now : DateTime) (t : Task)
    (hn : (tasks.map Task.name).Nodup) (ht : t ∈ tasks) :
    suitName tasks emotion conditions now t.name =
      cspSuitable emotion conditions now t := by
  unfold suitName
  rw [taskMap_of_nodup tasks t hn ht]

theorem cspMrv_mem (tasks : List Task) (emotion : String)
    (conditions : Conditions) (now : DateTime) (a : Assignment) (vr : String)
    (h : cspMrv tasks emotion conditions now a = some vr) :
    vr ∈ cspVariables tasks ∧ containsKey a vr = false := by
  unfold cspMrv at h
  split at h
  · exact absurd h (by simp)
  · have hm := firstMinBy_mem _ _ _ h
    have := List.mem_filter.mp hm
    exact ⟨this.1, by simpa using this.2⟩

theorem cspMrv_isSome (tasks : List Task) (emotion : String)
    (conditions : Conditions) (now : DateTime) (a : Assignment) (vr : String)
    (hv : vr ∈ cspVariables tasks) (hu : containsKey a vr = false) :
    (cspMrv tasks emotion conditions now a).isSome := by
  unfold cspMrv
  have hmem : vr ∈ cspUnassigned tasks a :=
    List.mem_filter.mpr ⟨hv, by simp [hu]⟩
  have hne : cspUnassigned tasks a ≠ [] := by
    intro hc
    rw [hc] at hmem
    simp at hmem
  have hie : (cspUnassigned tasks a).isEmpty = false := by
    cases hc : cspUnassigned tasks a
    · exact absurd hc hne
    · simp
  rw [if_neg (by simp [hie])]
  exact firstMinBy_isSome _ _ hne

theorem keys_length_le (keys vars : List String) (hk : keys.Nodup)
    (hv : vars.Nodup) (hsub : ∀ k ∈ keys, k ∈ vars) :
    keys.length ≤ vars.length := by
  classical
  have h1 : keys.toFinset ⊆ vars.toFinset := by
    intro x hx
    exact List.mem_toFinset.mpr (hsub x (List.mem_toFinset.mp hx))
  have h2 := Finset.card_le_card h1
  rwa [List.toFinset_card_of_nodup hk, List.toFinset_card_of_nodup hv] at h2

theorem vars_subset_keys (keys vars : List String) (hk : keys.Nodup)
    (hv : vars.Nodup) (hsub : ∀ k ∈ keys, k ∈ vars)
    (hlen : vars.length ≤ keys.length) : ∀ k ∈ vars, k ∈ keys := by
  classical
  have h1 : keys.toFinset ⊆ vars.toFinset := by
    intro x hx
    exact List.mem_toFinset.mpr (hsub x (List.mem_toFinset.mp hx))
  have h2 : vars.toFinset.card ≤ keys.toFinset.card := by
    rwa [List.toFinset_card_of_nodup hk, List.toFinset_card_of_nodup hv]
  have := Finset.eq_of_subset_of_card_le h1 h2
  intro k hkv
  exact List.mem_toFinset.mp (this ▸ List.mem_toFinset.mpr hkv)

/-- The full characterization of `CSP.backtrack` on a pool with distinct
names: starting from a partial assignment it always completes, every
previously assigned variable keeps its value, and every newly assigned
variable receives exactly its per-task suitability. -/
theorem cspBacktrack_spec (tasks : List Task) (emotion : String)
    (conditions : Conditions) (now : DateTime)
    (hn : (tasks.map Task.name).Nodup) :
    ∀ fuel a,
      (a.map Prod.fst).Nodup →
      (∀ k ∈ a.map Prod.fst, k ∈ cspVariables tasks) →
      (cspVariables tasks).length - a.length < fuel →
      ∃ r, cspBacktrack tasks emotion conditions now fuel a = some r ∧
        r.length = (cspVariables tasks).length ∧
        (r.map Prod.fst).Nodup ∧
        (∀ k ∈ r.map Prod.fst, k ∈ cspVariables tasks) ∧
        (∀ n, lookupA r n =
          match lookupA a n with
          | some v => some v
          | none =>
            if n ∈ cspVariables tasks then
              some (suitName tasks emotion conditions now n)
            else none) := by
  have hvars : (cspVariables tasks).Nodup := hn
  intro fuel
  induction fuel with
  | zero =>
    intro a _ _ hlt
    exact absurd hlt (by omega)
  | succ fuel ih =>
    intro a hka hsub hlt
    have hkeys : (a.map Prod.fst).length = a.length := by simp
    by_cases hfull : a.length = (cspVariables tasks).length
    · refine ⟨a, ?_, hfull.symm ▸ rfl, hka, hsub, ?_⟩
      · rw [cspBacktrack, if_pos hfull]
      · intro n
        cases hl : lookupA a n with
        | some v => simp
        | none =>
          simp only
          have hnk : n ∉ a.map Prod.fst := by
            intro hc
            have := (lookupA_isSome_iff a n).mpr hc
            rw [hl] at this
            simp at this
          by_cases hv : n ∈ cspVariables tasks
          · exfalso
            have := vars_subset_keys (a.map Prod.fst) (cspVariables tasks)
              hka hvars hsub (by omega) n hv
            exact hnk this
          · rw [if_neg hv]
    · have hless : a.length < (cspVariables tasks).length := by
        have := keys_length_le (a.map Prod.fst) (cspVariables tasks) hka hvars hsub
        omega
      -- an unassigned variable exists, so the MRV heuristic selects one
      have hex : ∃ v, v ∈ cspVariables tasks ∧ containsKey a v = false := by
        by_contra hc
        push_neg at hc
        have hall : ∀ v ∈ cspVariables tasks, v ∈ a.map Prod.fst := by
          intro v hv
          have hTrue : containsKey a v = true := by
            cases hx : containsKey a v
            · exact absurd hx (hc v hv)
            · rfl
          unfold containsKey at hTrue
          exact (lookupA_isSome_iff a v).mp hTrue
        have := keys_length_le (cspVariables tasks) (a.map Prod.fst) hvars hka hall
        omega
      obtain ⟨v0, hv0, hu0⟩ := hex
      have hmrvSome := cspMrv_isSome tasks emotion conditions now a v0 hv0 hu0
      cases hmrv : cspMrv tasks emotion conditions now a with
      | none => rw [hmrv] at hmrvSome; simp at hmrvSome
      | some var =>
        obtain ⟨hvarMem, hvarUn⟩ := cspMrv_mem tasks emotion conditions now a var hmrv
        obtain ⟨t, htMem, htName⟩ := List.mem_map.mp hvarMem
        have htm : taskMap tasks var = some t := htName ▸ taskMap_of_nodup tasks t hn htMem
        have hvarNotKey : var ∉ a.map Prod.fst := by
          intro hc
          have hx := (lookupA_isSome_iff a var).mpr hc
          unfold containsKey at hvarUn
          rw [hvarUn] at hx
          simp at hx
        have hconsTrue : isConsistent tasks emotion conditions now a var true =
            cspSuitable emotion conditions now t := by
          rw [isConsistent_eq, if_pos rfl, htm]
        have hconsFalse : isConsistent tasks emotion conditions now a var false = true := by
          rw [isConsistent_eq]
          simp
        -- invariants for the extended assignment with value x
        have hstep : ∀ x : Bool,
            ((a ++ [(var, x)]).map Prod.fst).Nodup ∧
            (∀ k ∈ (a ++ [(var, x)]).map Prod.fst, k ∈ cspVariables tasks) ∧
            (cspVariables tasks).length - (a ++ [(var, x)]).length < fuel := by
          intro x
          refine ⟨?_, ?_, ?_⟩
          · rw [List.map_append]
            rw [List.nodup_append]
            refine ⟨hka, by simp, ?_⟩
            intro y hy hy2
            have hyv : y = var := by simpa using hy2
            exact hvarNotKey (hyv ▸ hy)
          · intro k hk
            rw [List.map_append] at hk
            rcases List.mem_append.mp hk with h1 | h1
            · exact hsub k h1
            · have : k = var := by simpa using h1
              exact this ▸ hvarMem
          · simp only [List.length_append, List.length_cons, List.length_nil]
            omega
        have hlookupStep : ∀ (x : Bool) (n : String),
            lookupA (a ++ [(var, x)]) n =
              match lookupA a n with
              | some v => some v
              | none => if n = var then some x else none := by
          intro x n
          rw [lookupA_append]
          cases lookupA a n with
          | some v => simp
          | none =>
            simp only
            rcases eq_or_ne n var with hnv | hnv
            · subst hnv
              simp [lookupA]
            · simp [lookupA, hnv, hnv.symm]
        have hfinal : ∀ (x : Bool) r,
            (suitName tasks emotion conditions now var = x) →
            (∀ n, lookupA r n =
              match lookupA (a ++ [(var, x)]) n with
              | some v => some v
              | none =>
                if n ∈ cspVariables tasks then
                  some (suitName tasks emotion conditions now n)
                else none) →
            (∀ n, lookupA r n =
              match lookupA a n with
              | some v => some v
              | none =>
                if n ∈ cspVariables tasks then
                  some (suitName tasks emotion conditions now n)
                else none) := by
          intro x r hsx hr n
          rw [hr n, hlookupStep x n]
          cases lookupA a n with
          | some v => simp
          | none =>
            simp only
            by_cases hnv : n = var
            · rw [if_pos hnv, hnv, if_pos hvarMem, hsx]
            · rw [if_neg hnv]
        have hsuitVar : suitName tasks emotion conditions now var =
            cspSuitable emotion conditions now t := by
          unfold suitName
          rw [htm]
        cases hsuit : cspSuitable emotion conditions now t with
        | true =>
          obtain ⟨hnd1, hsub1, hlt1⟩ := hstep true
          obtain ⟨r, hr, hrlen, hrnd, hrsub, hrchar⟩ :=
            ih (a ++ [(var, true)]) hnd1 hsub1 hlt1
          refine ⟨r, ?_, hrlen, hrnd, hrsub,
            hfinal true r (by rw [hsuitVar, hsuit]) hrchar⟩
          rw [cspBacktrack, if_neg hfull, hmrv]
          simp only
          rw [if_pos (by rw [hconsTrue, hsuit]), hr]
        | false =>
          obtain ⟨hnd1, hsub1, hlt1⟩ := hstep false
          obtain ⟨r, hr, hrlen, hrnd, hrsub, hrchar⟩ :=
            ih (a ++ [(var, false)]) hnd1 hsub1 hlt1
          refine ⟨r, ?_, hrlen, hrnd, hrsub,
            hfinal false r (by rw [hsuitVar, hsuit]) hrchar⟩
          rw [cspBacktrack, if_neg hfull, hmrv]
          simp only
          rw [if_neg (by rw [hconsTrue, hsuit]; simp), if_pos hconsFalse, hr]

theorem taskMap_name (tasks : List Task) (n : String) (t : Task)
    (h : taskMap tasks n = some t) : t ∈ tasks ∧ t.name = n := by
  unfold taskMap at h
  constructor
  · exact List.mem_reverse.mp (List.mem_of_find?_eq_some h)
  · have := List.find?_some h
    simpa using this

/-- The recommended list of `CSP.solve` is the tasks of the `True`-valued
entries of the solution, in solution order; a run producing no
recommended task also produces no warning. -/
theorem cspExtract_fold (tasks : List Task) (conditions : Conditions)
    (now : DateTime) :
    ∀ (sol : Assignment) (acc : List Task × List String),
      (sol.foldl (cspExtractStep tasks conditions now) acc).1
        = acc.1 ++ sol.filterMap
            (fun p => if p.2 then taskMap tasks p.1 else none)
      ∧ (sol.filterMap (fun p => if p.2 then taskMap tasks p.1 else none) = [] →
          (sol.foldl (cspExtractStep tasks conditions now) acc).2 = acc.2) := by
  intro sol
  induction sol with
  | nil => intro acc; simp
  | cons p rest ih =>
    intro acc
    rw [List.foldl_cons]
    cases hp : p.2 with
    | false =>
      have hstep : cspExtractStep tasks conditions now acc p = acc := by
        unfold cspExtractStep
        rw [hp]
        simp
      rw [hstep]
      have hfm : List.filterMap
          (fun p => if p.2 then taskMap tasks p.1 else none) (p :: rest)
          = List.filterMap
            (fun p => if p.2 then taskMap tasks p.1 else none) rest := by
        rw [List.filterMap_cons]
        simp [hp]
      rw [hfm]
      exact ih acc
    | true =>
      cases htm : taskMap tasks p.1 with
      | none =>
        have hstep : cspExtractStep tasks conditions now acc p = acc := by
          unfold cspExtractStep
          rw [hp, htm]
          simp
        rw [hstep]
        have hfm : List.filterMap
            (fun p => if p.2 then taskMap tasks p.1 else none) (p :: rest)
            = List.filterMap
              (fun p => if p.2 then taskMap tasks p.1 else none) rest := by
          rw [List.filterMap_cons]
          simp [hp, htm]
        rw [hfm]
        exact ih acc
      | some task =>
        have hfm : List.filterMap
            (fun p => if p.2 then taskMap tasks p.1 else none) (p :: rest)
            = task :: List.filterMap
              (fun p => if p.2 then taskMap tasks p.1 else none) rest := by
          rw [List.filterMap_cons]
          simp [hp, htm]
        have hstep : (cspExtractStep tasks conditions now acc p).1
            = acc.1 ++ [task] := by
          unfold cspExtractStep
          rw [hp, htm]
          simp
        constructor
        · rw [(ih (cspExtractStep tasks conditions now acc p)).1, hstep, hfm]
          simp
        · intro hnil
          rw [hfm] at hnil
          exact absurd hnil (by simp)

/-- Characterization of `CSP.solve` on a pool with distinct names: the
backtracking search completes, and a task is recommended exactly when it
is a pool member passing all three per-task constraint predicates. -/
theorem cspSolve_char (tasks : List Task) (emotion : String)
    (conditionsArg : Option Conditions) (now : DateTime)
    (hn : (tasks.map Task.name).Nodup) :
    ∃ sol,
      cspBacktrack tasks emotion (conditionsArg.getD emptyConditions) now
        (tasks.length + 1) [] = some sol ∧
      sol.length = tasks.length ∧
      cspSolve tasks emotion conditionsArg now =
        cspExtract tasks (conditionsArg.getD emptyConditions) now sol ∧
      (∀ t : Task, t ∈ (cspSolve tasks emotion conditionsArg now).1 ↔
        (t ∈ tasks ∧
          cspSuitable emotion (conditionsArg.getD emptyConditions) now t = true)) := by
  set conditions := conditionsArg.getD emptyConditions with hcond
  have hlen : (cspVariables tasks).length = tasks.length := by
    unfold cspVariables
    simp
  obtain ⟨sol, hsol, hsollen, hsolnd, hsolsub, hchar⟩ :=
    cspBacktrack_spec tasks emotion conditions now hn (tasks.length + 1) []
      (by simp) (by simp) (by omega)
  have hlook : ∀ n, lookupA sol n =
      if n ∈ cspVariables tasks then
        some (suitName tasks emotion conditions now n)
      else none := by
    intro n
    have := hchar n
    simpa [lookupA] using this
  have hsolve : cspSolve tasks emotion conditionsArg now =
      cspExtract tasks conditions now sol := by
    simp only [cspSolve, ← hcond, hsol]
  refine ⟨sol, hsol, by omega, hsolve, ?_⟩
  intro t
  have hfst : (cspSolve tasks emotion conditionsArg now).1
      = sol.filterMap (fun p => if p.2 then taskMap tasks p.1 else none) := by
    rw [hsolve]
    unfold cspExtract
    rw [(cspExtract_fold tasks conditions now sol ([], [])).1]
    simp
  rw [hfst]
  constructor
  · intro hmem
    obtain ⟨p, hpmem, hpf⟩ := List.mem_filterMap.mp hmem
    cases hp : p.2 with
    | false => rw [hp] at hpf; simp at hpf
    | true =>
      rw [hp] at hpf
      rw [if_pos rfl] at hpf
      obtain ⟨htMem, htName⟩ := taskMap_name tasks p.1 t hpf
      refine ⟨htMem, ?_⟩
      have hkv : (p.1, true) ∈ sol := by
        have hpp : p = (p.1, true) := by
          rw [← hp]
        exact hpp ▸ hpmem
      have hl := mem_lookupA sol p.1 true hsolnd hkv
      rw [hlook p.1] at hl
      have hpv : p.1 ∈ cspVariables tasks := by
        by_contra hc
        rw [if_neg hc] at hl
        simp at hl
      rw [if_pos hpv] at hl
      have hsuit : suitName tasks emotion conditions now p.1 = true := by
        cases hq : suitName tasks emotion conditions now p.1
        · rw [hq] at hl
          simp at hl
        · rfl
      rw [← htName] at hsuit
      rwa [suitName_of_mem tasks emotion conditions now t hn htMem] at hsuit
  · rintro ⟨htMem, hsuit⟩
    have hv : t.name ∈ cspVariables tasks := List.mem_map.mpr ⟨t, htMem, rfl⟩
    have hl := hlook t.name
    rw [if_pos hv, suitName_of_mem tasks emotion conditions now t hn htMem,
      hsuit] at hl
    have hkv : (t.name, true) ∈ sol := lookupA_mem sol t.name true hl
    exact List.mem_filterMap.mpr ⟨(t.name, true), hkv,
      by simp [taskMap_of_nodup tasks t hn htMem]⟩

/-! ## Claim theorems -/

/-- C1: for a pool with distinct task names, `CSP.solve()` recommends a
task iff that task by itself satisfies the Emotion, Time and Resource
constraint predicates; consequently the outcome for a task is the same
whether it is solved alone or inside a larger pool, independent of the
ordering heuristics. -/
theorem c1_csp_solve_iff_suitable (tasks : List Task) (emotion : String)
    (conditionsArg : Option Conditions) (now : DateTime)
    (hn : (tasks.map Task.name).Nodup) :
    ∀ t ∈ tasks,
      (t ∈ (cspSolve tasks emotion conditionsArg now).1 ↔
        cspSuitable emotion (conditionsArg.getD emptyConditions) now t = true) ∧
      (t ∈ (cspSolve [t] emotion conditionsArg now).1 ↔
        t ∈ (cspSolve tasks emotion conditionsArg now).1) := by
  intro t ht
  obtain ⟨_, _, _, _, hiff⟩ := cspSolve_char tasks emotion conditionsArg now hn
  obtain ⟨_, _, _, _, hiff1⟩ := cspSolve_char [t] emotion conditionsArg now (by simp)
  constructor
  · rw [hiff t]
    exact ⟨fun h => h.2, fun h => ⟨ht, h⟩⟩
  · rw [hiff t, hiff1 t]
    simp [ht]

/-- Witness for C1 at a concrete two-task pool. -/
theorem c1_witness :
    (([exWalk, exReport].map Task.name).Nodup ∧ exWalk ∈ [exWalk, exReport]) ∧
    ((exWalk ∈ (cspSolve [exWalk, exReport] "happy" none exNow).1 ↔
        cspSuitable "happy" ((none : Option Conditions).getD emptyConditions)
          exNow exWalk = true) ∧
      (exWalk ∈ (cspSolve [exWalk] "happy" none exNow).1 ↔
        exWalk ∈ (cspSolve [exWalk, exReport] "happy" none exNow).1)) :=
  ⟨⟨by decide, by decide⟩,
   c1_csp_solve_iff_suitable [exWalk, exReport] "happy" none exNow (by decide)
     exWalk (by decide)⟩

/-- C10: for a pool with distinct task names `CSP.backtrack` always
completes a full assignment from the empty one (assigning `False` is
always consistent), so the failure branch of `CSP.solve` returning
`([], ["CSP could not find a solution"])` is unreachable. -/
theorem c10_backtrack_total (tasks : List Task) (emotion : String)
    (conditionsArg : Option Conditions) (now : DateTime)
    (hn : (tasks.map Task.name).Nodup) :
    ∃ sol, cspBacktrack tasks emotion (conditionsArg.getD emptyConditions) now
        (tasks.length + 1) [] = some sol ∧
      sol.length = tasks.length ∧
      cspSolve tasks emotion conditionsArg now ≠
        ([], ["CSP could not find a solution"]) := by
  obtain ⟨sol, hsol, hlen, hsolve, _⟩ :=
    cspSolve_char tasks emotion conditionsArg now hn
  refine ⟨sol, hsol, hlen, ?_⟩
  intro hc
  rw [hsolve] at hc
  have h1 := (cspExtract_fold tasks (conditionsArg.getD emptyConditions) now
    sol ([], [])).1
  have h2 := (cspExtract_fold tasks (conditionsArg.getD emptyConditions) now
    sol ([], [])).2
  have hfst : (cspExtract tasks (conditionsArg.getD emptyConditions) now sol).1
      = sol.filterMap (fun p => if p.2 then taskMap tasks p.1 else none) := by
    unfold cspExtract
    rw [h1]
    simp
  have hnil : sol.filterMap (fun p => if p.2 then taskMap tasks p.1 else none)
      = [] := by
    rw [← hfst, hc]
  have hsnd : (cspExtract tasks (conditionsArg.getD emptyConditions) now sol).2
      = [] := by
    unfold cspExtract
    exact h2 hnil
  rw [hc] at hsnd
  simp at hsnd

/-- Witness for C10 at a concrete pool. -/
theorem c10_witness :
    ([exWalk].map Task.name).Nodup ∧
    (∃ sol, cspBacktrack [exWalk] "happy"
        ((none : Option Conditions).getD emptyConditions) exNow
        ([exWalk].length + 1) [] = some sol ∧
      sol.length = [exWalk].length ∧
      cspSolve [exWalk] "happy" none exNow ≠
        ([], ["CSP could not find a solution"])) :=
  ⟨by decide, c10_backtrack_total [exWalk] "happy" none exNow (by decide)⟩

/-- C5: `compute_score` is total in the embedding and its result is never
below 0.1, for every task and every combination of inputs. -/
theorem c5_compute_score_floor (t : Task) (current_emotion : String)
    (current_time : Option DateTime) (current_energy : Int)
    (preference_bonus urgency_bonus : ℚ) (now : DateTime) :
    (1/10 : ℚ) ≤ t.compute_score current_emotion current_time current_energy
      preference_bonus urgency_bonus now := by
  unfold Task.compute_score
  exact le_max_left _ _

/-- C8: the output of `apply_strict_constraints` is a sublist of its
input: the same elements, a subset, in their original relative order. -/
theorem c8_strict_filter_sublist (tasks : List Task) (conditions : Conditions)
    (current_emotion : String) (now : DateTime) :
    (apply_strict_constraints tasks conditions current_emotion now).Sublist
      tasks := by
  unfold apply_strict_constraints
  exact List.filter_sublist tasks

theorem mark_attempted_clamped (t : Task) (b : Bool) (now : DateTime)
    (h1 : (1/10 : ℚ) ≤ t.success_rate) (h2 : t.success_rate ≤ 1) :
    (1/10 : ℚ) ≤ (t.mark_attempted b now).success_rate ∧
      (t.mark_attempted b now).success_rate ≤ 1 := by
  cases b with
  | true =>
    have hv : (t.mark_attempted true now).success_rate
        = min 1 (t.success_rate + 1/10) := by
      simp [Task.mark_attempted]
    rw [hv]
    exact ⟨le_min (by norm_num) (by linarith), min_le_left _ _⟩
  | false =>
    have hv : (t.mark_attempted false now).success_rate
        = max (1/10) (t.success_rate - 2/10) := by
      simp [Task.mark_attempted]
    rw [hv]
    exact ⟨le_max_left _ _, max_le (by norm_num) (by linarith)⟩

/-- C9: starting from a `success_rate` in [0.1, 1], any sequence of
`mark_attempted` calls (+0.1 capped at 1 on success, −0.2 floored at 0.1
on failure) keeps `success_rate` in [0.1, 1]. -/
theorem c9_success_rate_clamped (t : Task) (now : DateTime)
    (attempts : List Bool) (h1 : (1/10 : ℚ) ≤ t.success_rate)
    (h2 : t.success_rate ≤ 1) :
    (1/10 : ℚ) ≤ (applyAttempts t now attempts).success_rate ∧
      (applyAttempts t now attempts).success_rate ≤ 1 := by
  revert h1 h2
  induction attempts generalizing t with
  | nil =>
    intro h1 h2
    exact ⟨h1, h2⟩
  | cons b bs ih =>
    intro h1 h2
    have hstep := mark_attempted_clamped t b now h1 h2
    simpa [applyAttempts, List.foldl_cons] using
      ih (t.mark_attempted b now) hstep.1 hstep.2

/-- Witness for C9 at a concrete task with a mixed attempt history. -/
theorem c9_witness :
    ((1/10 : ℚ) ≤ exWalk.success_rate ∧ exWalk.success_rate ≤ 1) ∧
    ((1/10 : ℚ) ≤ (applyAttempts exWalk exNow
        [true, false, false, false, false, false]).success_rate ∧
      (applyAttempts exWalk exNow
        [true, false, false, false, false, false]).success_rate ≤ 1) :=
  ⟨⟨by norm_num [exWalk], by norm_num [exWalk]⟩,
   c9_success_rate_clamped exWalk exNow [true, false, false, false, false, false]
     (by norm_num [exWalk]) (by norm_num [exWalk])⟩

/-- C2 counterexample: at a concrete overdue task the caller-supplied
`urgency_bonus` argument (here 1000) has no effect on `compute_score`,
while removing the deadline lowers the score by exactly the
deadline-proximity term 10 — so the sum does not include the argument,
and the deadline term is part of every call, not only of explicit
`get_urgency_bonus()` invocations. -/
theorem c2_counterexample :
    Task.compute_score exOverdueFar "calm" none 5 0 1000 exNow
      = Task.compute_score exOverdueFar "calm" none 5 0 0 exNow ∧
    Task.compute_score exOverdueFar "calm" none 5 0 0 exNow
      = Task.compute_score exNoDeadline "calm" none 5 0 0 exNow + 10 := by
  refine ⟨rfl, ?_⟩
  have s1 : ¬ (("calm" : String) = "happy") := by decide
  have s2 : ¬ (("general" : String) = "must_do") := by decide
  have s3 : ¬ (("general" : String) = "mood_changer") := by decide
  have s4 : ¬ (("any" : String) = "morning") := by decide
  have hd5 : ((-432000 : ℤ).fdiv 86400) = -5 := by decide
  have h1 : Task.compute_score exOverdueFar "calm" none 5 0 0 exNow = 20 := by
    simp only [Task.compute_score, Task.get_urgency_bonus,
      Task.get_time_suitability, preferredTimeBonus, Task.preferredTime,
      Task.energyRequired, exOverdueFar, exNoDeadline, exWalk, exNow,
      emptyConstraints]
    norm_num [s1, s2, s3, s4, hd5]
  have h2 : Task.compute_score exNoDeadline "calm" none 5 0 0 exNow = 10 := by
    simp only [Task.compute_score, Task.get_urgency_bonus,
      Task.get_time_suitability, preferredTimeBonus, Task.preferredTime,
      Task.energyRequired, exOverdueFar, exNoDeadline, exWalk, exNow,
      emptyConstraints]
    norm_num [s1, s2, s3, s4]
  rw [h1, h2]
  norm_num

/-- C2 amended: `compute_score` ignores its `urgency_bonus` argument
entirely, and the deadline-proximity term `get_urgency_bonus()` is added
inside every `compute_score` call on top of the other scoring terms
(before the 0.1 floor). -/
theorem c2_urgency_argument_ignored (t : Task) (current_emotion : String)
    (current_time : Option DateTime) (current_energy : Int)
    (preference_bonus ub ub2 : ℚ) (now : DateTime) :
    t.compute_score current_emotion current_time current_energy
        preference_bonus ub now
      = t.compute_score current_emotion current_time current_energy
        preference_bonus ub2 now ∧
    t.compute_score current_emotion current_time current_energy
        preference_bonus ub now
      = max (1/10) (t.score_sum current_emotion (current_time.getD now)
          current_energy preference_bonus + t.get_urgency_bonus now) := by
  constructor
  · rfl
  · unfold Task.compute_score Task.score_sum
    congr 1

/-- C4 counterexample: a must_do task of priority 9 whose `emotion_fit`
misses the current emotion passes the strict filter's Emotion check but
is not recommended by the CSP solver — its Emotion constraint has no
must_do bypass. -/
theorem c4_counterexample :
    exReport.task_type = "must_do" ∧ 7 ≤ exReport.base_priority ∧
    "sad" ∉ exReport.emotion_fit ∧
    apply_strict_constraints [exReport] emptyConditions "sad" exNow
      = [exReport] ∧
    (cspSolve [exReport] "sad" none exNow).1 = [] := by
  exact ⟨rfl, by decide, by decide, by decide, by decide⟩

/-- C4 amended: the must_do/priority≥7 bypass of the Emotion check exists
only in `apply_strict_constraints`; the CSP solver's Emotion constraint
requires plain `emotion ∈ emotion_fit`, so such a task survives the
strict filter yet is never recommended by `CSP.solve`. -/
theorem c4_bypass_only_strict (t : Task) (emotion : String)
    (conditionsArg : Option Conditions) (now : DateTime)
    (hmt : t.task_type = "must_do") (hp : 7 ≤ t.base_priority)
    (hmiss : emotion ∉ t.emotion_fit)
    (htime : t.is_time_suitable
      ((conditionsArg.getD emptyConditions).current_time.getD now) = true)
    (hres : t.check_constraints (conditionsArg.getD emptyConditions) now
      = true) :
    t ∈ apply_strict_constraints [t] (conditionsArg.getD emptyConditions)
      emotion now ∧
    t ∉ (cspSolve [t] emotion conditionsArg now).1 := by
  constructor
  · have hpass : strictPass (conditionsArg.getD emptyConditions) emotion now t
        = true := by
      unfold strictPass
      simp [hmt, hp, hmiss, htime, hres]
    unfold apply_strict_constraints
    exact List.mem_filter.mpr ⟨List.mem_singleton_self t, hpass⟩
  · obtain ⟨_, _, _, _, hiff⟩ :=
      cspSolve_char [t] emotion conditionsArg now (by simp)
    rw [hiff t]
    rintro ⟨_, hsuit⟩
    unfold cspSuitable at hsuit
    simp [hmiss] at hsuit

/-- Witness for C4 at the concrete must_do task. -/
theorem c4_witness :
    (exReport.task_type = "must_do" ∧ 7 ≤ exReport.base_priority ∧
      "sad" ∉ exReport.emotion_fit ∧
      exReport.is_time_suitable
        (((none : Option Conditions).getD emptyConditions).current_time.getD
          exNow) = true ∧
      exReport.check_constraints
        ((none : Option Conditions).getD emptyConditions) exNow = true) ∧
    (exReport ∈ apply_strict_constraints [exReport]
        ((none : Option Conditions).getD emptyConditions) "sad" exNow ∧
      exReport ∉ (cspSolve [exReport] "sad" none exNow).1) :=
  ⟨⟨rfl, by decide, by decide, by decide, by decide⟩,
   c4_bypass_only_strict exReport "sad" none exNow rfl (by decide) (by decide)
     (by decide) (by decide)⟩

/-- C3: at `exNow` the pool holds a task 5 days overdue and a task 1 day
overdue; `csp_task` picks the 1-day-overdue one — its overdue bucket is
sorted by ascending `abs(days)`, i.e. least overdue first, although the
source's own comment (and the spec) say "Most overdue first". -/
theorem c3_overdue_selects_least_overdue :
    deadlineEntries [exOverdueFar, exOverdueNear] exNow
      = [(exOverdueFar, -5), (exOverdueNear, -1)] ∧
    csp_task [exOverdueFar, exOverdueNear] (some exNow) exNow
      = (some exOverdueNear,
         "This task is 1 days OVERDUE! You should complete it immediately.",
         "overdue") ∧
    exOverdueNear ≠ exOverdueFar := by
  exact ⟨by decide, by decide, by decide⟩

theorem hcClimb_mono (pool : List Task) :
    ∀ (n : Nat) (cur : Task), cur.score ≤ (hcClimb pool n cur).score := by
  intro n
  induction n with
  | zero => intro cur; exact le_refl _
  | succ n ih =>
    intro cur
    rw [hcClimb]
    cases hfm : firstMaxBy (fun t : Task => t.score)
        (pool.filter (fun t =>
          !(decide (t = cur)) &&
            decide ((3/5 : ℚ) ≤ calculate_task_similarity cur t))) with
    | none => exact le_refl _
    | some best =>
      show cur.score ≤
        (if cur.score < best.score then hcClimb pool n best else cur).score
      by_cases hlt : cur.score < best.score
      · rw [if_pos hlt]
        exact le_of_lt (lt_of_lt_of_le hlt (ih best))
      · rw [if_neg hlt]

/-- C6: whenever `hill_climbing` runs (some task survives the strict
filter), the task it returns scores at least as high as the best-scoring
strictly-filtered starting task: every move strictly increases the score,
so the climb is monotonically non-decreasing. -/
theorem c6_hill_climbing_monotone (tasks : List Task)
    (current_conditions : Option Conditions) (max_iterations : Nat)
    (now : DateTime) (s : Task)
    (hs : hcStart tasks current_conditions now = some s) :
    ∃ r, hill_climbing tasks current_conditions max_iterations now = some r ∧
      s.score ≤ r.score := by
  unfold hcStart at hs
  cases hsetup : hcSetup tasks current_conditions now with
  | none =>
    rw [hsetup] at hs
    simp at hs
  | some ps =>
    obtain ⟨pool, start⟩ := ps
    rw [hsetup] at hs
    have hss : start = s := by simpa using hs
    refine ⟨hcClimb pool max_iterations start, ?_, ?_⟩
    · unfold hill_climbing
      rw [hsetup]
    · rw [← hss]
      exact hcClimb_mono pool max_iterations start

/-- Witness for C6 at a concrete one-task pool. -/
theorem c6_witness :
    hcStart [exWalk] (some exConds) exNow = some exWalkScored ∧
    ∃ r, hill_climbing [exWalk] (some exConds) 5 exNow = some r ∧
      exWalkScored.score ≤ r.score :=
  ⟨rfl, c6_hill_climbing_monotone [exWalk] (some exConds) 5 exNow
    exWalkScored rfl⟩

theorem popMin_mem : ∀ (l : List AEntry) (e : AEntry) (rest : List AEntry),
    popMin l = some (e, rest) → e ∈ l ∧ ∀ x ∈ rest, x ∈ l := by
  intro l
  induction l with
  | nil => intro e rest h; simp [popMin] at h
  | cons a as ih =>
    intro e rest h
    rw [popMin] at h
    cases hm : popMin as with
    | none =>
      rw [hm] at h
      simp only [Option.some_inj] at h
      obtain ⟨he, hrest⟩ := Prod.mk.injEq .. ▸ h
      constructor
      · rw [← he]; exact List.mem_cons_self a as
      · intro x hx
        rw [← hrest] at hx
        simp at hx
    | some p =>
      obtain ⟨y, ys⟩ := p
      rw [hm] at h
      simp only at h
      obtain ⟨hy, hys⟩ := ih y ys hm
      split at h
      · simp only [Option.some_inj] at h
        obtain ⟨he, hrest⟩ := Prod.mk.injEq .. ▸ h
        constructor
        · rw [← he]; exact List.mem_cons_of_mem a hy
        · intro x hx
          rw [← hrest] at hx
          rcases List.mem_cons.mp hx with h1 | h1
          · rw [h1]; exact List.mem_cons_self a as
          · exact List.mem_cons_of_mem a (hys x h1)
      · simp only [Option.some_inj] at h
        obtain ⟨he, hrest⟩ := Prod.mk.injEq .. ▸ h
        constructor
        · rw [← he]; exact List.mem_cons_self a as
        · intro x hx
          rw [← hrest] at hx
          exact List.mem_cons_of_mem a hx

/-- The generic step of `dedupeByName` keeps the accumulated names
distinct and only accumulates elements of the input. -/
theorem dedupeFold_spec : ∀ (l acc : List Task),
    ((acc.map Task.name).Nodup) →
    (((l.foldl (fun acc t =>
        if acc.any (fun u => u.name == t.name) then acc else acc ++ [t])
        acc).map Task.name).Nodup ∧
      ∀ t ∈ l.foldl (fun acc t =>
        if acc.any (fun u => u.name == t.name) then acc else acc ++ [t]) acc,
        t ∈ acc ∨ t ∈ l) := by
  intro l
  induction l with
  | nil =>
    intro acc hacc
    exact ⟨hacc, fun t ht => Or.inl ht⟩
  | cons a as ih =>
    intro acc hacc
    rw [List.foldl_cons]
    by_cases hany : acc.any (fun u => u.name == a.name)
    · rw [if_pos hany]
      obtain ⟨h1, h2⟩ := ih acc hacc
      refine ⟨h1, ?_⟩
      intro t ht
      rcases h2 t ht with h | h
      · exact Or.inl h
      · exact Or.inr (List.mem_cons_of_mem a h)
    · rw [if_neg hany]
      have hnotin : a.name ∉ acc.map Task.name := by
        intro hc
        obtain ⟨u, hu, hun⟩ := List.mem_map.mp hc
        exact hany (List.any_eq_true.mpr ⟨u, hu, by simp [hun]⟩)
      have hacc2 : ((acc ++ [a]).map Task.name).Nodup := by
        rw [List.map_append, List.nodup_append]
        refine ⟨hacc, by simp, ?_⟩
        intro y hy hy2
        have : y = a.name := by simpa using hy2
        exact hnotin (this ▸ hy)
      obtain ⟨h1, h2⟩ := ih (acc ++ [a]) hacc2
      refine ⟨h1, ?_⟩
      intro t ht
      rcases h2 t ht with h | h
      · rcases List.mem_append.mp h with h3 | h3
        · exact Or.inl h3
        · have : t = a := by simpa using h3
          exact Or.inr (this ▸ List.mem_cons_self a as)
      · exact Or.inr (List.mem_cons_of_mem a h)

theorem dedupeByName_nodup (l : List Task) :
    ((dedupeByName l).map Task.name).Nodup :=
  (dedupeFold_spec l [] (by simp)).1

/-- Every initial entry of the open set is a one-task sequence over the
pool. -/
theorem initEntries_spec (all_tasks : List Task) (fatigue_score : Int)
    (now : DateTime) (current_emotion : String) :
    ∀ e ∈ initEntries all_tasks fatigue_score now current_emotion,
      ∃ t ∈ all_tasks, e.2.seq = [t] := by
  have main : ∀ (l : List Task) (acc : List AEntry × Nat),
      (∀ e ∈ acc.1, ∃ t ∈ all_tasks, e.2.seq = [t]) →
      (∀ t ∈ l, t ∈ all_tasks) →
      ∀ e ∈ (l.foldl (fun acc task =>
          ((acc.1 ++ [(acc.2,
            (⟨[task], predict_next_emotion task current_emotion,
              g_score fatigue_score now task current_emotion true,
              h_score fatigue_score now task
                (predict_next_emotion task current_emotion)⟩ : ANode))]),
            acc.2 + 1)) acc).1,
        ∃ t ∈ all_tasks, e.2.seq = [t] := by
    intro l
    induction l with
    | nil => intro acc hacc _ e he; exact hacc e he
    | cons a as ih =>
      intro acc hacc hsub e he
      rw [List.foldl_cons] at he
      refine ih _ ?_ (fun t ht => hsub t (List.mem_cons_of_mem a ht)) e he
      intro x hx
      rcases List.mem_append.mp hx with h1 | h1
      · exact hacc x h1
      · have hxa : x = (acc.2,
            (⟨[a], predict_next_emotion a current_emotion,
              g_score fatigue_score now a current_emotion true,
              h_score fatigue_score now a
                (predict_next_emotion a current_emotion)⟩ : ANode)) := by
          simpa using h1
        exact ⟨a, hsub a (List.mem_cons_self a as), by rw [hxa]⟩
  intro e he
  exact main all_tasks ([], 0) (by simp) (fun t ht => ht) e he

/-- Every entry produced by `expandChildren` extends the node's sequence
by one pool task not already in it. -/
theorem expandChildren_spec (all_tasks : List Task) (fatigue_score : Int)
    (now : DateTime) (node : ANode) (cnt0 : Nat) :
    ∀ e ∈ (expandChildren all_tasks fatigue_score now node cnt0).1,
      ∃ t ∈ all_tasks, ¬ t ∈ node.seq ∧ e.2.seq = node.seq ++ [t] := by
  have main : ∀ (l : List Task) (acc : List AEntry × Nat),
      (∀ e ∈ acc.1, ∃ t ∈ all_tasks, ¬ t ∈ node.seq ∧ e.2.seq = node.seq ++ [t]) →
      (∀ t ∈ l, t ∈ all_tasks) →
      ∀ e ∈ (l.foldl (fun acc next_task =>
          if decide (next_task ∈ node.seq) then acc
          else if !(decide (node.emotion_after ∈ next_task.emotion_fit))
              && !(decide (next_task.task_type = "must_do")
                  && decide (7 ≤ next_task.base_priority)) then acc
          else
            (acc.1 ++ [(acc.2,
              (⟨node.seq ++ [next_task],
                predict_next_emotion next_task node.emotion_after,
                node.g + g_score fatigue_score now next_task node.emotion_after false,
                h_score fatigue_score now next_task
                  (predict_next_emotion next_task node.emotion_after)⟩ : ANode))],
              acc.2 + 1)) acc).1,
        ∃ t ∈ all_tasks, ¬ t ∈ node.seq ∧ e.2.seq = node.seq ++ [t] := by
    intro l
    induction l with
    | nil => intro acc hacc _ e he; exact hacc e he
    | cons a as ih =>
      intro acc hacc hsub e he
      rw [List.foldl_cons] at he
      by_cases hin : decide (a ∈ node.seq) = true
      · rw [if_pos hin] at he
        exact ih acc hacc (fun t ht => hsub t (List.mem_cons_of_mem a ht)) e he
      · rw [if_neg (by simpa using hin)] at he
        by_cases hem : (!(decide (node.emotion_after ∈ a.emotion_fit))
            && !(decide (a.task_type = "must_do")
                && decide (7 ≤ a.base_priority))) = true
        · rw [if_pos hem] at he
          exact ih acc hacc (fun t ht => hsub t (List.mem_cons_of_mem a ht)) e he
        · rw [if_neg (by simpa using hem)] at he
          refine ih _ ?_ (fun t ht => hsub t (List.mem_cons_of_mem a ht)) e he
          intro x hx
          rcases List.mem_append.mp hx with h1 | h1
          · exact hacc x h1
          · have hnotin : ¬ a ∈ node.seq := by simpa using hin
            refine ⟨a, hsub a (List.mem_cons_self a as), hnotin, ?_⟩
            have hxa : x.2.seq = node.seq ++ [a] := by
              have : x = (acc.2,
                  (⟨node.seq ++ [a],
                    predict_next_emotion a node.emotion_after,
                    node.g + g_score fatigue_score now a node.emotion_after false,
                    h_score fatigue_score now a
                      (predict_next_emotion a node.emotion_after)⟩ : ANode)) := by
                simpa using h1
              rw [this]
            exact hxa
  intro e he
  exact main all_tasks ([], cnt0) (by simp) (fun t ht => ht) e he

/-- Invariant of the search loop: if every open node carries a sequence
of pool tasks without repeated names, and the retained best does too,
then so does any sequence the loop returns. -/
theorem aStarLoop_inv (all_tasks : List Task) (fatigue_score : Int)
    (now : DateTime) (maxLen : Nat)
    (hAll : (all_tasks.map Task.name).Nodup) :
    ∀ (fuel : Nat) (frontier : List AEntry) (cnt : Nat)
      (best : Option (List Task × ℚ)),
      (∀ e ∈ frontier,
        (e.2.seq.map Task.name).Nodup ∧ ∀ t ∈ e.2.seq, t ∈ all_tasks) →
      (∀ s q, best = some (s, q) →
        (s.map Task.name).Nodup ∧ ∀ t ∈ s, t ∈ all_tasks) →
      ∀ r, aStarLoop all_tasks fatigue_score now maxLen fuel frontier cnt best
          = some r →
        (r.map Task.name).Nodup ∧ ∀ t ∈ r, t ∈ all_tasks := by
  intro fuel
  induction fuel with
  | zero =>
    intro frontier cnt best hfr hbest r hr
    rw [aStarLoop] at hr
    cases best with
    | none => simp at hr
    | some p =>
      obtain ⟨s, q⟩ := p
      have hsr : s = r := by simpa using hr
      exact hsr ▸ hbest s q rfl
  | succ fuel ih =>
    intro frontier cnt best hfr hbest r hr
    rw [aStarLoop] at hr
    cases hpop : popMin frontier with
    | none =>
      rw [hpop] at hr
      cases best with
      | none => simp at hr
      | some p =>
        obtain ⟨s, q⟩ := p
        have hsr : s = r := by simpa using hr
        exact hsr ▸ hbest s q rfl
    | some pr =>
      obtain ⟨e, rest⟩ := pr
      rw [hpop] at hr
      simp only at hr
      obtain ⟨heMem, hrestMem⟩ := popMin_mem frontier e rest hpop
      have hrest : ∀ x ∈ rest,
          (x.2.seq.map Task.name).Nodup ∧ ∀ t ∈ x.2.seq, t ∈ all_tasks :=
        fun x hx => hfr x (hrestMem x hx)
      by_cases hd : maxLen ≤ e.2.depth
      · rw [if_pos hd] at hr
        refine ih rest cnt _ hrest ?_ r hr
        intro s q hsq
        cases best with
        | none =>
          obtain ⟨hs, _⟩ : e.2.seq = s ∧ e.2.f = q := by simpa using hsq
          exact hs ▸ hfr e heMem
        | some bp =>
          obtain ⟨bs, bf⟩ := bp
          simp only at hsq
          by_cases hf : e.2.f < bf
          · rw [if_pos hf] at hsq
            obtain ⟨hs, _⟩ : e.2.seq = s ∧ e.2.f = q := by simpa using hsq
            exact hs ▸ hfr e heMem
          · rw [if_neg hf] at hsq
            obtain ⟨hs, _⟩ : bs = s ∧ bf = q := by simpa using hsq
            exact hs ▸ hbest bs bf rfl
      · rw [if_neg hd] at hr
        refine ih _ _ _ ?_ hbest r hr
        intro x hx
        rcases List.mem_append.mp hx with h1 | h1
        · exact hrest x h1
        · obtain ⟨t, htA, htNot, htSeq⟩ :=
            expandChildren_spec all_tasks fatigue_score now e.2 cnt x h1
          obtain ⟨hend, hemem⟩ := hfr e heMem
          constructor
          · rw [htSeq, List.map_append, List.nodup_append]
            refine ⟨hend, by simp, ?_⟩
            intro y hy hy2
            have hyt : y = t.name := by simpa using hy2
            obtain ⟨u, hu, hun⟩ := List.mem_map.mp hy
            have hut : u = t :=
              List.inj_on_of_nodup_map hAll (hemem u hu) htA (hun.trans hyt)
            exact htNot (hut ▸ hu)
          · intro u hu
            rw [htSeq] at hu
            rcases List.mem_append.mp hu with h2 | h2
            · exact hemem u h2
            · have : u = t := by simpa using h2
              exact this ▸ htA

/-- Any sequence retained by `miniAStarBest` has no repeated task
names. -/
theorem miniAStarBest_nodup (tasks : List Task) (current_emotion : String)
    (current_conditions : Option Conditions) (max_sequence_length : Nat)
    (user_preferences : Option (List Task)) (now : DateTime) (s : List Task)
    (h : miniAStarBest tasks current_emotion current_conditions
      max_sequence_length user_preferences now = some s) :
    (s.map Task.name).Nodup := by
  unfold miniAStarBest at h
  refine (aStarLoop_inv
    (miniAStarCandidates tasks current_emotion current_conditions
      user_preferences now)
    (aStarFatigue current_conditions) now max_sequence_length
    (dedupeByName_nodup _) _ _ _ none ?_ ?_ s h).1
  · intro e he
    obtain ⟨t, htA, htSeq⟩ := initEntries_spec _ _ _ _ e he
    rw [htSeq]
    constructor
    · simp
    · intro u hu
      have : u = t := by simpa using hu
      exact this ▸ htA
  · intro s q hc
    simp at hc

/-- The greedy fallback is at most one task long with trivially distinct
names. -/
theorem miniAStarFallback_short (A : List Task) (emo : String)
    (now : DateTime) :
    (miniAStarFallback A emo now).length ≤ 1 ∧
    ((miniAStarFallback A emo now).map Task.name).Nodup := by
  unfold miniAStarFallback
  cases greedy A (some emo) none now <;> simp

/-- C7 counterexample: with `max_sequence_length = 0` the search finds
only a length-1 candidate, so the greedy fallback fires and returns a
sequence of length 1 > 0, violating the claimed length bound. -/
theorem c7_counterexample :
    mini_a_star [exWalk] "happy" (some emptyConditions) 0 none exNow
      = [exWalk] ∧
    ¬ ((mini_a_star [exWalk] "happy" (some emptyConditions) 0 none exNow).length
      ≤ 0) := by
  exact ⟨by decide, by decide⟩

/-- C7 amended: for `max_sequence_length ≥ 1`, `mini_a_star` returns a
sequence of length at most `max_sequence_length` with no repeated task
names, and when the search retains no sequence of length ≥ 2 it returns
the greedy fallback (a single task, or the empty list). -/
theorem c7_sequence_bounds (tasks : List Task) (current_emotion : String)
    (current_conditions : Option Conditions) (max_sequence_length : Nat)
    (user_preferences : Option (List Task)) (now : DateTime)
    (hlen : 1 ≤ max_sequence_length) :
    (mini_a_star tasks current_emotion current_conditions max_sequence_length
        user_preferences now).length ≤ max_sequence_length ∧
    ((mini_a_star tasks current_emotion current_conditions max_sequence_length
        user_preferences now).map Task.name).Nodup ∧
    ((miniAStarBest tasks current_emotion current_conditions
          max_sequence_length user_preferences now = none ∨
        (∃ s, miniAStarBest tasks current_emotion current_conditions
            max_sequence_length user_preferences now = some s ∧ s.length < 2)) →
      mini_a_star tasks current_emotion current_conditions max_sequence_length
          user_preferences now =
        miniAStarFallback (miniAStarCandidates tasks current_emotion
          current_conditions user_preferences now) current_emotion now) := by
  have hfb := miniAStarFallback_short (miniAStarCandidates tasks
    current_emotion current_conditions user_preferences now) current_emotion now
  unfold mini_a_star
  by_cases hp : (tasks ++ user_preferences.getD []).isEmpty
  · rw [if_pos hp]
    have hpool : tasks ++ user_preferences.getD [] = [] := by
      simpa [List.isEmpty_iff] using hp
    have hcand : miniAStarCandidates tasks current_emotion current_conditions
        user_preferences now = [] := by
      unfold miniAStarCandidates
      rw [hpool]
      rfl
    refine ⟨by simp, by simp, ?_⟩
    intro _
    rw [hcand]
    rfl
  · rw [if_neg hp]
    by_cases hv : (apply_strict_constraints (tasks ++ user_preferences.getD [])
        ((current_conditions.getD emptyConditions)) current_emotion now).isEmpty
    · rw [if_pos hv]
      have hvalid : apply_strict_constraints (tasks ++ user_preferences.getD [])
          ((current_conditions.getD emptyConditions)) current_emotion now = [] := by
        simpa [List.isEmpty_iff] using hv
      have hcand : miniAStarCandidates tasks current_emotion current_conditions
          user_preferences now = [] := by
        unfold miniAStarCandidates
        rw [hvalid]
        rfl
      refine ⟨by simp, by simp, ?_⟩
      intro _
      rw [hcand]
      rfl
    · rw [if_neg hv]
      cases hb : miniAStarBest tasks current_emotion current_conditions
          max_sequence_length user_preferences now with
      | none =>
        simp only [miniAStarAssemble]
        exact ⟨le_trans hfb.1 hlen, hfb.2, fun _ => trivial⟩
      | some s =>
        simp only [miniAStarAssemble]
        by_cases h2 : 2 ≤ s.length
        · rw [if_pos h2]
          have hnd := miniAStarBest_nodup tasks current_emotion
            current_conditions max_sequence_length user_preferences now s hb
          refine ⟨List.length_take_le _ _, ?_, ?_⟩
          · have hsub : ((s.take max_sequence_length).map Task.name).Sublist
                (s.map Task.name) :=
              List.Sublist.map Task.name (List.take_sublist _ _)
            exact List.Nodup.sublist hsub hnd
          · rintro (hc | ⟨s2, hs2, hlt⟩)
            · exact absurd hc (by simp)
            · have hss : s = s2 := by simpa using hs2
              rw [hss] at h2
              omega
        · rw [if_neg h2]
          exact ⟨le_trans hfb.1 hlen, hfb.2, fun _ => rfl⟩

/-- Witness for C7 at a concrete pool with `max_sequence_length = 3`. -/
theorem c7_witness :
    1 ≤ 3 ∧
    ((mini_a_star [exWalk, exReport] "happy" (some emptyConditions) 3 none
        exNow).length ≤ 3 ∧
      ((mini_a_star [exWalk, exReport] "happy" (some emptyConditions) 3 none
        exNow).map Task.name).Nodup ∧
      ((miniAStarBest [exWalk, exReport] "happy" (some emptyConditions) 3 none
          exNow = none ∨
        (∃ s, miniAStarBest [exWalk, exReport] "happy" (some emptyConditions) 3
            none exNow = some s ∧ s.length < 2)) →
        mini_a_star [exWalk, exReport] "happy" (some emptyConditions) 3 none
            exNow =
          miniAStarFallback (miniAStarCandidates [exWalk, exReport] "happy"
            (some emptyConditions) none exNow) "happy" exNow)) :=
  ⟨by decide, c7_sequence_bounds [exWalk, exReport] "happy"
    (some emptyConditions) 3 none exNow (by decide)⟩

/-! ## Fuel sufficiency of the search loop

The fuel `aStarFuel` passed by `miniAStarBest` is an implementation
artifact of the embedding: the following lemmas show the loop's result is
the same for every fuel above the strictly decreasing `frontierMeasure`,
and that `aStarFuel` is above the initial measure, so the embedded loop
computes the Python loop's true fixpoint. -/

theorem popMin_none : ∀ (l : List AEntry), popMin l = none ↔ l = [] := by
  intro l
  cases l with
  | nil => simp [popMin]
  | cons a as =>
    rw [popMin]
    cases hm : popMin as with
    | none => simp
    | some p =>
      obtain ⟨y, ys⟩ := p
      simp only
      split <;> simp

theorem popMin_perm : ∀ (l : List AEntry) (e : AEntry) (rest : List AEntry),
    popMin l = some (e, rest) → l.Perm (e :: rest) := by
  intro l
  induction l with
  | nil => intro e rest h; simp [popMin] at h
  | cons a as ih =>
    intro e rest h
    rw [popMin] at h
    cases hm : popMin as with
    | none =>
      rw [hm] at h
      have has : as = [] := (popMin_none as).mp hm
      simp only [Option.some_inj] at h
      obtain ⟨he, hrest⟩ := Prod.mk.injEq .. ▸ h
      rw [has, ← he, ← hrest]
    | some p =>
      obtain ⟨y, ys⟩ := p
      rw [hm] at h
      simp only at h
      have hperm : as.Perm (y :: ys) := ih y ys hm
      split at h
      · simp only [Option.some_inj] at h
        obtain ⟨he, hrest⟩ := Prod.mk.injEq .. ▸ h
        rw [← he, ← hrest]
        exact (hperm.cons a).trans (List.Perm.swap y a ys)
      · simp only [Option.some_inj] at h
        obtain ⟨he, hrest⟩ := Prod.mk.injEq .. ▸ h
        rw [← he, ← hrest]

theorem frontierMeasure_perm (n k : Nat) (l l2 : List AEntry)
    (h : l.Perm l2) : frontierMeasure n k l = frontierMeasure n k l2 :=
  List.Perm.sum_eq (h.map (nodeWeight n k))

theorem frontierMeasure_append (n k : Nat) (l l2 : List AEntry) :
    frontierMeasure n k (l ++ l2)
      = frontierMeasure n k l + frontierMeasure n k l2 := by
  unfold frontierMeasure
  rw [List.map_append, List.sum_append]

theorem nodeWeight_pos (n k : Nat) (e : AEntry) : 1 ≤ nodeWeight n k e :=
  Nat.one_le_pow _ _ (Nat.succ_pos n)

/-- Each child of an expansion sits one level deeper than its parent. -/
theorem expandChildren_depth (all_tasks : List Task) (fatigue_score : Int)
    (now : DateTime) (node : ANode) (cnt0 : Nat) :
    ∀ e ∈ (expandChildren all_tasks fatigue_score now node cnt0).1,
      e.2.depth = node.depth + 1 := by
  intro e he
  obtain ⟨t, _, _, hseq⟩ :=
    expandChildren_spec all_tasks fatigue_score now node cnt0 e he
  unfold ANode.depth
  rw [hseq]
  simp [ANode.depth]

/-- An expansion creates at most one child per pool task. -/
theorem expandChildren_length (all_tasks : List Task) (fatigue_score : Int)
    (now : DateTime) (node : ANode) (cnt0 : Nat) :
    (expandChildren all_tasks fatigue_score now node cnt0).1.length
      ≤ all_tasks.length := by
  have main : ∀ (l : List Task) (acc : List AEntry × Nat),
      (l.foldl (fun acc next_task =>
        if decide (next_task ∈ node.seq) then acc
        else if !(decide (node.emotion_after ∈ next_task.emotion_fit))
            && !(decide (next_task.task_type = "must_do")
                && decide (7 ≤ next_task.base_priority)) then acc
        else
          (acc.1 ++ [(acc.2,
            (⟨node.seq ++ [next_task],
              predict_next_emotion next_task node.emotion_after,
              node.g + g_score fatigue_score now next_task node.emotion_after false,
              h_score fatigue_score now next_task
                (predict_next_emotion next_task node.emotion_after)⟩ : ANode))],
            acc.2 + 1)) acc).1.length ≤ acc.1.length + l.length := by
    intro l
    induction l with
    | nil => intro acc; simp
    | cons a as ih =>
      intro acc
      rw [List.foldl_cons]
      by_cases hin : decide (a ∈ node.seq) = true
      · rw [if_pos hin]
        calc _ ≤ acc.1.length + as.length := ih acc
          _ ≤ acc.1.length + (a :: as).length := by simp
      · rw [if_neg (by simpa using hin)]
        by_cases hem : (!(decide (node.emotion_after ∈ a.emotion_fit))
            && !(decide (a.task_type = "must_do")
                && decide (7 ≤ a.base_priority))) = true
        · rw [if_pos hem]
          calc _ ≤ acc.1.length + as.length := ih acc
            _ ≤ acc.1.length + (a :: as).length := by simp
        · rw [if_neg (by simpa using hem)]
          calc _ ≤ (acc.1.length + 1) + as.length := by
                have := ih (acc.1 ++ [(acc.2,
                  (⟨node.seq ++ [a],
                    predict_next_emotion a node.emotion_after,
                    node.g + g_score fatigue_score now a node.emotion_after false,
                    h_score fatigue_score now a
                      (predict_next_emotion a node.emotion_after)⟩ : ANode))],
                  acc.2 + 1)
                simpa using this
            _ = acc.1.length + (a :: as).length := by simp; omega
  have h0 := main all_tasks ([], cnt0)
  simp only [List.length_nil, Nat.zero_add] at h0
  exact h0

/-- Popping one entry and pushing its children strictly shrinks the
measure: the entry's weight exceeds the total weight of its children. -/
theorem expandChildren_measure (all_tasks : List Task) (fatigue_score : Int)
    (now : DateTime) (max_sequence_length : Nat) (e : AEntry) (cnt : Nat)
    (hd : e.2.depth < max_sequence_length) :
    frontierMeasure all_tasks.length max_sequence_length
        (expandChildren all_tasks fatigue_score now e.2 cnt).1 + 1
      ≤ nodeWeight all_tasks.length max_sequence_length e := by
  set n := all_tasks.length with hn
  set d := e.2.depth with hdep
  set w : Nat := (n + 1) ^ (max_sequence_length - (d + 1)) with hw
  have hWeight : ∀ x ∈ (expandChildren all_tasks fatigue_score now e.2 cnt).1,
      nodeWeight n max_sequence_length x = w := by
    intro x hx
    have := expandChildren_depth all_tasks fatigue_score now e.2 cnt x hx
    unfold nodeWeight
    rw [this, ← hdep, hw]
  have hsum : frontierMeasure n max_sequence_length
      (expandChildren all_tasks fatigue_score now e.2 cnt).1
      ≤ (expandChildren all_tasks fatigue_score now e.2 cnt).1.length * w := by
    unfold frontierMeasure
    calc ((expandChildren all_tasks fatigue_score now e.2 cnt).1.map
          (nodeWeight n max_sequence_length)).sum
        ≤ ((expandChildren all_tasks fatigue_score now e.2 cnt).1.map
          (nodeWeight n max_sequence_length)).length * w := by
          apply List.sum_le_card_nsmul
          intro x hx
          obtain ⟨y, hy, hyx⟩ := List.mem_map.mp hx
          rw [← hyx, hWeight y hy]
      _ = (expandChildren all_tasks fatigue_score now e.2 cnt).1.length * w := by
          rw [List.length_map]
  have hlen := expandChildren_length all_tasks fatigue_score now e.2 cnt
  have hwpos : 1 ≤ w := Nat.one_le_pow _ _ (Nat.succ_pos n)
  have hexp : nodeWeight n max_sequence_length e = (n + 1) * w := by
    unfold nodeWeight
    rw [hw,
      show max_sequence_length - e.2.depth
        = (max_sequence_length - (d + 1)) + 1 from by omega,
      pow_succ]
    ring
  calc frontierMeasure n max_sequence_length
        (expandChildren all_tasks fatigue_score now e.2 cnt).1 + 1
      ≤ (expandChildren all_tasks fatigue_score now e.2 cnt).1.length * w + 1 := by
        omega
    _ ≤ n * w + w := by
        have h1 : (expandChildren all_tasks fatigue_score now e.2 cnt).1.length * w
            ≤ n * w := Nat.mul_le_mul_right w (hn ▸ hlen)
        omega
    _ = (n + 1) * w := by ring
    _ = nodeWeight n max_sequence_length e := hexp.symm

/-- Above the frontier measure, the fuel does not influence the loop's
result. -/
theorem aStarLoop_fuel_stable (all_tasks : List Task) (fatigue_score : Int)
    (now : DateTime) (max_sequence_length : Nat) :
    ∀ (fuel fuel2 : Nat) (frontier : List AEntry) (cnt : Nat)
      (best : Option (List Task × ℚ)),
      frontierMeasure all_tasks.length max_sequence_length frontier < fuel →
      frontierMeasure all_tasks.length max_sequence_length frontier < fuel2 →
      aStarLoop all_tasks fatigue_score now max_sequence_length fuel
          frontier cnt best
        = aStarLoop all_tasks fatigue_score now max_sequence_length fuel2
          frontier cnt best := by
  intro fuel
  induction fuel with
  | zero =>
    intro fuel2 frontier cnt best h1 _
    exact absurd h1 (by omega)
  | succ fuel ih =>
    intro fuel2 frontier cnt best h1 h2
    cases fuel2 with
    | zero => exact absurd h2 (by omega)
    | succ fuel2 =>
      rw [aStarLoop, aStarLoop]
      cases hpop : popMin frontier with
      | none => rfl
      | some pr =>
        obtain ⟨e, rest⟩ := pr
        simp only
        have hperm := popMin_perm frontier e rest hpop
        have hmeas : frontierMeasure all_tasks.length max_sequence_length
            frontier
            = nodeWeight all_tasks.length max_sequence_length e
              + frontierMeasure all_tasks.length max_sequence_length rest := by
          rw [frontierMeasure_perm _ _ _ _ hperm]
          unfold frontierMeasure
          simp
        have hwpos := nodeWeight_pos all_tasks.length max_sequence_length e
        by_cases hd : max_sequence_length ≤ e.2.depth
        · rw [if_pos hd, if_pos hd]
          exact ih fuel2 rest cnt _ (by omega) (by omega)
        · rw [if_neg hd, if_neg hd]
          have hmc := expandChildren_measure all_tasks fatigue_score now
            max_sequence_length e cnt (by omega)
          have hmx : frontierMeasure all_tasks.length max_sequence_length
              (rest ++ (expandChildren all_tasks fatigue_score now e.2 cnt).1)
              < frontierMeasure all_tasks.length max_sequence_length
                frontier := by
            rw [frontierMeasure_append]
            omega
          exact ih fuel2 _ _ _ (by omega) (by omega)

/-- The length of the initial open set is the pool size. -/
theorem initEntries_length (all_tasks : List Task) (fatigue_score : Int)
    (now : DateTime) (current_emotion : String) :
    (initEntries all_tasks fatigue_score now current_emotion).length
      = all_tasks.length := by
  have main : ∀ (l : List Task) (acc : List AEntry × Nat),
      (l.foldl (fun acc task =>
        ((acc.1 ++ [(acc.2,
          (⟨[task], predict_next_emotion task current_emotion,
            g_score fatigue_score now task current_emotion true,
            h_score fatigue_score now task
              (predict_next_emotion task current_emotion)⟩ : ANode))]),
          acc.2 + 1)) acc).1.length = acc.1.length + l.length := by
    intro l
    induction l with
    | nil => intro acc; simp
    | cons a as ih =>
      intro acc
      rw [List.foldl_cons, ih]
      simp
      omega
  have := main all_tasks ([], 0)
  simpa [initEntries] using this

/-- The fuel `miniAStarBest` supplies exceeds the initial frontier
measure, so by `aStarLoop_fuel_stable` the retained best sequence is the
loop's true fixpoint, independent of the fuel bound. -/
theorem aStarFuel_sufficient (all_tasks : List Task) (fatigue_score : Int)
    (now : DateTime) (current_emotion : String) (max_sequence_length : Nat) :
    frontierMeasure all_tasks.length max_sequence_length
        (initEntries all_tasks fatigue_score now current_emotion)
      < aStarFuel all_tasks max_sequence_length := by
  set n := all_tasks.length with hn
  have hbound : ∀ x ∈ initEntries all_tasks fatigue_score now current_emotion,
      nodeWeight n max_sequence_length x ≤ (n + 1) ^ max_sequence_length := by
    intro x _
    unfold nodeWeight
    exact Nat.pow_le_pow_right (Nat.succ_pos n) (by omega)
  have hsum : frontierMeasure n max_sequence_length
        (initEntries all_tasks fatigue_score now current_emotion)
      ≤ n * (n + 1) ^ max_sequence_length := by
    unfold frontierMeasure
    calc ((initEntries all_tasks fatigue_score now current_emotion).map
          (nodeWeight n max_sequence_length)).sum
        ≤ ((initEntries all_tasks fatigue_score now current_emotion).map
          (nodeWeight n max_sequence_length)).length
            * (n + 1) ^ max_sequence_length := by
          apply List.sum_le_card_nsmul
          intro x hx
          obtain ⟨y, hy, hyx⟩ := List.mem_map.mp hx
          rw [← hyx]
          exact hbound y hy
      _ = n * (n + 1) ^ max_sequence_length := by
          rw [List.length_map,
            initEntries_length all_tasks fatigue_score now current_emotion]
  have hlt : n * (n + 1) ^ max_sequence_length
      < aStarFuel all_tasks max_sequence_length := by
    unfold aStarFuel
    rw [← hn]
    have hp : 1 ≤ (n + 1) ^ max_sequence_length :=
      Nat.one_le_pow _ _ (Nat.succ_pos n)
    calc n * (n + 1) ^ max_sequence_length
        < (n + 1) * (n + 1) ^ max_sequence_length := by
          exact Nat.mul_lt_mul_of_lt_of_le (Nat.lt_succ_self n) (le_refl _) hp
      _ = (n + 1) ^ (max_sequence_length + 1) := by ring
      _ ≤ (n + 1) ^ (max_sequence_length + 1) * (n + 1) := by
          exact Nat.le_mul_of_pos_right _ (Nat.succ_pos n)
  omega

/-- `miniAStarBest` equals the loop run with any sufficient fuel: the
embedding's fuel bound is invisible in the result. -/
theorem miniAStarBest_fuel_irrelevant (tasks : List Task)
    (current_emotion : String) (current_conditions : Option Conditions)
    (max_sequence_length : Nat) (user_preferences : Option (List Task))
    (now : DateTime) (fuel : Nat)
    (hf : frontierMeasure
        (miniAStarCandidates tasks current_emotion current_conditions
          user_preferences now).length max_sequence_length
        (initEntries
          (miniAStarCandidates tasks current_emotion current_conditions
            user_preferences now)
          (aStarFatigue current_conditions) now current_emotion) < fuel) :
    miniAStarBest tasks current_emotion current_conditions
        max_sequence_length user_preferences now
      = aStarLoop
        (miniAStarCandidates tasks current_emotion current_conditions
          user_preferences now)
        (aStarFatigue current_conditions) now max_sequence_length fuel
        (initEntries
          (miniAStarCandidates tasks current_emotion current_conditions
            user_preferences now)
          (aStarFatigue current_conditions) now current_emotion)
        (initEntries
          (miniAStarCandidates tasks current_emotion current_conditions
            user_preferences now)
          (aStarFatigue current_conditions) now current_emotion).length
        none := by
  unfold miniAStarBest
  exact aStarLoop_fuel_stable _ _ _ _ _ fuel _ _ _
    (aStarFuel_sufficient _ _ _ _ _) hf

/-- Witness instance of the fuel-irrelevance fact at a concrete pool. -/
theorem miniAStarBest_fuel_irrelevant_instance :
    frontierMeasure
        (miniAStarCandidates [exWalk] "happy" (some emptyConditions) none
          exNow).length 3
        (initEntries
          (miniAStarCandidates [exWalk] "happy" (some emptyConditions) none
            exNow)
          (aStarFatigue (some emptyConditions)) exNow "happy") < 1000 ∧
    miniAStarBest [exWalk] "happy" (some emptyConditions) 3 none exNow
      = aStarLoop
        (miniAStarCandidates [exWalk] "happy" (some emptyConditions) none exNow)
        (aStarFatigue (some emptyConditions)) exNow 3 1000
        (initEntries
          (miniAStarCandidates [exWalk] "happy" (some emptyConditions) none
            exNow)
          (aStarFatigue (some emptyConditions)) exNow "happy")
        (initEntries
          (miniAStarCandidates [exWalk] "happy" (some emptyConditions) none
            exNow)
          (aStarFatigue (some emptyConditions)) exNow "happy").length
        none :=
  ⟨by decide,
   miniAStarBest_fuel_irrelevant [exWalk] "happy" (some emptyConditions) 3
     none exNow 1000 (by decide)⟩

end ETO
